import Mathlib

/-!
Shallow embedding of the l0proof threshold-signature oracle network
(coordinator state machine, signer protocol, LevelDB-backed indexed store,
canonical hashing and message construction), translated from the Go source
(`bootstrap/data_collector.go`, `bootstrap/rpc.go`, and the operator/signer
node files), together with theorems settling the frozen specification claims.

Modelling conventions:
- byte strings are `List Nat` (each entry < 256);
- `keccak256` and secp256k1 signature recovery are pure unknown functions,
  passed as parameters (`keccak`, `Env.recover`): every theorem quantifies
  over them, so it holds in particular for the real primitives;
- Go's `map[string]T` is an association list updated in place;
- LevelDB is a key-sorted association list (`KV`); iteration over a prefix
  enumerates the keys in ascending byte order, as LevelDB does;
- JSON round-trips are the identity on the structured values the program
  stores (`VVal`), with a `junk` constructor standing for undecodable bytes;
- `float64` is a significand/exponent pair (`FloatRep`), and `big.Float`
  arithmetic is modelled by its exact mantissa/exponent algorithm, rounding
  to the precision Go's `math/big` uses here (64 bits, round-to-nearest-even).
-/

namespace L0

instance exceptDecEq {ε α : Type} [DecidableEq ε] [DecidableEq α] :
    DecidableEq (Except ε α) := fun a b =>
  match a, b with
  | .error e, .error f => decidable_of_iff (e = f) (by simp)
  | .error _, .ok _ => .isFalse (by simp)
  | .ok _, .error _ => .isFalse (by simp)
  | .ok a, .ok b => decidable_of_iff (a = b) (by simp)

/-! ### Characters and strings -/

/-- Lexicographic byte-order comparison on char lists (LevelDB's default
bytewise comparator, restricted to the ASCII keys this program builds). -/
def listLtCh : List Char → List Char → Bool
  | [], [] => false
  | [], _ :: _ => true
  | _ :: _, [] => false
  | a :: as, b :: bs =>
    if a.toNat < b.toNat then true
    else if b.toNat < a.toNat then false
    else listLtCh as bs

/-- Key comparison used to keep the modelled LevelDB sorted. -/
def strLt (a b : String) : Bool := listLtCh a.data b.data

/-- `p` is a byte prefix of `s` (`util.BytesPrefix` range membership). -/
def strHasPfx (p s : String) : Bool := List.isPrefixOf p.data s.data

/-- Split a char list at every occurrence of `c` (`strings.Split`). -/
def splitChAux (c : Char) : List Char → List (List Char)
  | [] => [[]]
  | x :: xs =>
    match splitChAux c xs with
    | [] => [[x]]
    | h :: t => if x = c then [] :: h :: t else (x :: h) :: t

/-- `strings.Split(s, ":")` (the separator this program always uses). -/
def splitColon (s : String) : List String := (splitChAux ':' s.data).map String.mk

/-- Decimal digit character, as produced by `fmt.Sprintf("%d", _)`. -/
def digChar (n : Nat) : Char :=
  if n = 0 then '0' else if n = 1 then '1' else if n = 2 then '2' else if n = 3 then '3'
  else if n = 4 then '4' else if n = 5 then '5' else if n = 6 then '6' else if n = 7 then '7'
  else if n = 8 then '8' else '9'

/-- Decimal digits of `n`, most significant first; `fuel` bounds recursion
depth and any `fuel ≥ n` is enough (each step divides `n` by ten). -/
def natDigitsAux : Nat → Nat → List Char
  | 0, _ => []
  | fuel + 1, n => if n < 10 then [digChar n] else natDigitsAux fuel (n / 10) ++ [digChar (n % 10)]

/-- Decimal representation of a natural number. -/
def natRepr (n : Nat) : String := String.mk (natDigitsAux (n + 1) n)

/-- Decimal representation of an integer: `fmt.Sprintf("%d")`, `big.Int.String`. -/
def intRepr (i : Int) : String := if i < 0 then "-" ++ natRepr (-i).toNat else natRepr i.toNat

/-- ASCII lower-casing of one character. -/
def lowerChar (c : Char) : Char :=
  if 'A' ≤ c ∧ c ≤ 'Z' then Char.ofNat (c.toNat + 32) else c

/-- Case-insensitive comparison (`strings.EqualFold`, restricted to the ASCII
hex addresses this program compares). -/
def eqFold (a b : String) : Bool := a.data.map lowerChar == b.data.map lowerChar

/-! ### Hex encoding and decoding -/

/-- `encoding/hex` digit decoding: `0-9`, `a-f`, `A-F`. -/
def hexDigitVal? (c : Char) : Option Nat :=
  if '0' ≤ c ∧ c ≤ '9' then some (c.toNat - 48)
  else if 'a' ≤ c ∧ c ≤ 'f' then some (c.toNat - 87)
  else if 'A' ≤ c ∧ c ≤ 'F' then some (c.toNat - 55)
  else none

def hexDecodeChars : List Char → Option (List Nat)
  | [] => some []
  | [_] => none
  | a :: b :: rest =>
    match hexDigitVal? a, hexDigitVal? b, hexDecodeChars rest with
    | some ha, some hb, some bs => some ((16 * ha + hb) :: bs)
    | _, _, _ => none

/-- `hex.DecodeString`: fails on odd length or a non-hex digit. -/
def hexDecode? (s : String) : Option (List Nat) := hexDecodeChars s.data

/-- Lower-case hex digit for a value below 16 (`fmt.Sprintf("%x")`). -/
def hexDigitChar (n : Nat) : Char :=
  if n < 10 then digChar n
  else if n = 10 then 'a' else if n = 11 then 'b' else if n = 12 then 'c'
  else if n = 13 then 'd' else if n = 14 then 'e' else 'f'

/-- `fmt.Sprintf("%x", bytes)`: lowercase hex, two digits per byte. -/
def hexOfBytes (bs : List Nat) : String :=
  String.mk ((bs.map fun b => [hexDigitChar (b / 16), hexDigitChar (b % 16)]).flatten)

/-! ### UTF-8 -/

/-- Standard UTF-8 encoding of one character. -/
def utf8Char (c : Char) : List Nat :=
  let n := c.toNat
  if n < 0x80 then [n]
  else if n < 0x800 then [0xC0 + n / 64, 0x80 + n % 64]
  else if n < 0x10000 then [0xE0 + n / 4096, 0x80 + n / 64 % 64, 0x80 + n % 64]
  else [0xF0 + n / 262144, 0x80 + n / 4096 % 64, 0x80 + n / 64 % 64, 0x80 + n % 64]

/-- Raw UTF-8 bytes of a string (Go's `[]byte(s)`). -/
def strUtf8 (s : String) : List Nat := (s.data.map utf8Char).flatten

/-! ### JSON values and Go's `encoding/json` serialization

The program only ever places strings, integers and `nil` inside the `data`
array it marshals (see `StockQuoteMessageBuilder.BuildMessage`). -/

inductive JVal where
  | jstr : String → JVal
  | jint : Int → JVal
  | jnull : JVal
deriving DecidableEq

/-- `encoding/json` string escaping: `"` `\` `\n` `\r` `\t` specially, other
control characters as `\u00xx`, HTML-significant `<` `>` `&` escaped by
default, and U+2028/U+2029 escaped. -/
def jsonEscapeChar (c : Char) : List Char :=
  if c = '"' then ['\\', '"']
  else if c = '\\' then ['\\', '\\']
  else if c = '\n' then ['\\', 'n']
  else if c = '\r' then ['\\', 'r']
  else if c = '\t' then ['\\', 't']
  else if c = '<' then ['\\', 'u', '0', '0', '3', 'c']
  else if c = '>' then ['\\', 'u', '0', '0', '3', 'e']
  else if c = '&' then ['\\', 'u', '0', '0', '2', '6']
  else if c.toNat < 0x20 then ['\\', 'u', '0', '0', hexDigitChar (c.toNat / 16), hexDigitChar (c.toNat % 16)]
  else if c.toNat = 0x2028 then ['\\', 'u', '2', '0', '2', '8']
  else if c.toNat = 0x2029 then ['\\', 'u', '2', '0', '2', '9']
  else [c]

def jsonStr (s : String) : String :=
  String.mk ('"' :: (s.data.map jsonEscapeChar).flatten ++ ['"'])

def jsonVal : JVal → String
  | .jstr s => jsonStr s
  | .jint n => intRepr n
  | .jnull => "null"

/-- `json.Marshal` of a `[]interface{}` holding the values above. -/
def jsonArr (l : List JVal) : String :=
  "[" ++ String.intercalate "," (l.map jsonVal) ++ "]"

/-- `fmt.Sprintf("%v", v)` for the stored field values (string prints raw,
ints decimal, a `nil` interface prints `<nil>`). -/
def fmtV : JVal → String
  | .jstr s => s
  | .jint n => intRepr n
  | .jnull => "<nil>"

/-! ### Association lists (Go maps) -/

/-- Go map lookup. -/
def aGet {α : Type} : List (String × α) → String → Option α
  | [], _ => none
  | (k', v') :: rest, k => if k = k' then some v' else aGet rest k

/-- Go map assignment `m[k] = v` (replace in place or append). -/
def aSet {α : Type} : List (String × α) → String → α → List (String × α)
  | [], k, v => [(k, v)]
  | (k', v') :: rest, k, v =>
    if k = k' then (k, v) :: rest else (k', v') :: aSet rest k v

/-- Go `delete(m, k)`. -/
def aDel {α : Type} (l : List (String × α)) (k : String) : List (String × α) :=
  l.filter (fun e => e.1 ≠ k)

/-- `map[string]bool` used as a set: insert if absent. -/
def sInsert (l : List String) (a : String) : List String :=
  if a ∈ l then l else l ++ [a]

/-! ### Data model (`SignRequest`, `SignResponse`, `Message`) -/

structure SignRequest where
  type : String
  hash : String
  data : List JVal
  dataStructure : List String
  dataStructureMeta : List String
  dataStructureId : Int
  timestamp : Int
deriving DecidableEq

structure SignResponse where
  type : String
  hash : String
  signature : String
  peerID : String
deriving DecidableEq

/-- The durable record (`Message` in `data_collector.go`); `signatures := none`
models Go's nil map. -/
structure Message where
  hash : String
  data : List JVal
  dataStructure : List String
  dataStructureMeta : List String
  signatures : Option (List (String × String))
  timestamp : Int
deriving DecidableEq

structure DataStructureStats where
  id : Int
  messageCount : Nat
  lastMessageTime : Int
  lastConfirmedTime : Int
  lastConfirmedHash : String
deriving DecidableEq

/-! ### The LevelDB model

A value in the store is one of the JSON shapes the program writes; `junk`
stands for stored bytes that do not decode into the expected shape. -/

inductive VVal where
  | empty : VVal
  | msg : Message → VVal
  | sigmap : List (String × String) → VVal
  | dsv : List String → VVal
  | junk : VVal
deriving DecidableEq

/-- LevelDB: an association list kept sorted by `strLt`, unique keys. -/
def KV := List (String × VVal)

instance : DecidableEq KV := fun a b => List.hasDecEq a b

/-- `db.Put`: sorted insert, replacing an existing binding. -/
def kvPut : KV → String → VVal → KV
  | [], k, v => [(k, v)]
  | (k', v') :: rest, k, v =>
    if strLt k k' then (k, v) :: (k', v') :: rest
    else if k = k' then (k, v) :: rest
    else (k', v') :: kvPut rest k v

/-- `db.Get` (`none` is `leveldb.ErrNotFound`). -/
def kvGet : KV → String → Option VVal
  | [], _ => none
  | (k', v') :: rest, k => if k = k' then some v' else kvGet rest k

/-- The keys a `util.BytesPrefix(p)` iterator visits, ascending. -/
def kvKeysPfx (kv : KV) (p : String) : List String :=
  (kv.map (fun e => e.1)).filter (strHasPfx p)

/-! ### Store operations (`LevelDBDatabase`) -/

/-- The timestamp index key `index:<dsId>:<timestamp>:<hash>`. -/
def tsIndexKey (dsId : Int) (ts : Int) (hash : String) : String :=
  "index:" ++ intRepr dsId ++ ":" ++ intRepr ts ++ ":" ++ hash

/-- A field index key `index:<dsId>:<field>:<value>:<hash>`. -/
def fieldIndexKey (dsId : Int) (f : String) (v : JVal) (hash : String) : String :=
  "index:" ++ intRepr dsId ++ ":" ++ f ++ ":" ++ fmtV v ++ ":" ++ hash

/-- The `dataMap` built at the top of `StoreData`: `dataMap[field] = data[i]`
for `i < len(data)`, later duplicates overwriting earlier ones. -/
def buildDataMap (dataStructureMeta : List String) (data : List JVal) : List (String × JVal) :=
  (List.zip dataStructureMeta data).foldl (fun m fd => aSet m fd.1 fd.2) []

/-- `LevelDBDatabase.StoreData` (all puts succeeding; Go map iteration order
over `dataMap` is arbitrary, but the puts target distinct keys so the final
store does not depend on it — we iterate in insertion order). -/
def storeData (kv : KV) (hash : String) (data : List JVal)
    (dataStructure dataStructureMeta : List String) (timestamp : Int)
    (dataStructureID : Int) : KV :=
  let dataMap := buildDataMap dataStructureMeta data
  let msg : Message := ⟨hash, data, dataStructure, dataStructureMeta, none, timestamp⟩
  let dsKey := "ds:" ++ intRepr dataStructureID
  let kv := match kvGet kv dsKey with
    | some _ => kv
    | none => kvPut kv dsKey (.dsv dataStructure)
  let kv := kvPut kv ("data:" ++ hash) (.msg msg)
  let kv := kvPut kv (tsIndexKey dataStructureID timestamp hash) .empty
  dataMap.foldl (fun kv fv => kvPut kv (fieldIndexKey dataStructureID fv.1 fv.2 hash) .empty) kv

/-- `LevelDBDatabase.StoreSignature`; `putOk` is the oracle for the final KV
write succeeding (a failed put leaves the store unchanged). -/
def storeSignature (putOk : Bool) (kv : KV) (hash signer signature : String) :
    Except String KV :=
  match kvGet kv ("sig:" ++ hash) with
  | some (.sigmap sigs) =>
    if putOk then .ok (kvPut kv ("sig:" ++ hash) (.sigmap (aSet sigs signer signature)))
    else .error "failed to store signatures"
  | some _ => .error "failed to unmarshal signatures"
  | none =>
    if putOk then .ok (kvPut kv ("sig:" ++ hash) (.sigmap (aSet [] signer signature)))
    else .error "failed to store signatures"

/-- `LevelDBDatabase.GetSignatures`: `(some [], false)` is Go's fresh non-nil
empty map with `exists=false`; `(none, false)` is a nil map on decode failure. -/
def getSignatures (kv : KV) (hash : String) : Option (List (String × String)) × Bool :=
  match kvGet kv ("sig:" ++ hash) with
  | none => (some [], false)
  | some (.sigmap sigs) => (some sigs, true)
  | some _ => (none, false)

/-- The join `sigs, exists := GetSignatures(msg.Hash); if exists { msg.Signatures = sigs }`. -/
def joinSignatures (kv : KV) (m : Message) : Message :=
  match getSignatures kv m.hash with
  | (some sigs, true) => { m with signatures := some sigs }
  | _ => m

/-- The loop body of `GetAllMessages`: walk the index keys newest-first,
skip while `skip > 0` (only entries whose `data:` row exists count), decode,
join signatures, stop once `count >= limit`. -/
def gamLoop (kv : KV) (limit : Int) : List String → Int → Nat → List Message → List Message
  | [], _, _, acc => acc
  | k :: ks, skip, count, acc =>
    match splitColon k with
    | _ :: _ :: _ :: hash :: _ =>
      match kvGet kv ("data:" ++ hash) with
      | none => gamLoop kv limit ks skip count acc
      | some v =>
        if 0 < skip then gamLoop kv limit ks (skip - 1) count acc
        else
          match v with
          | .msg m =>
            if limit ≤ (count + 1 : Int) then acc ++ [joinSignatures kv m]
            else gamLoop kv limit ks skip (count + 1) (acc ++ [joinSignatures kv m])
          | _ => gamLoop kv limit ks skip count acc
    | _ => gamLoop kv limit ks skip count acc

/-- `LevelDBDatabase.GetAllMessages`: reverse iteration over the
`index:<dsId>:` range, `skip := (page-1)*limit`. -/
def getAllMessages (kv : KV) (dataStructureID : Int) (page limit : Int) : List Message :=
  let pfx := "index:" ++ intRepr dataStructureID ++ ":"
  gamLoop kv limit (kvKeysPfx kv pfx).reverse ((page - 1) * limit) 0 []

/-- `RPCServer.handleList` after query parsing: clamp `page < 0` to `0` and
`limit` outside `[1,100]` to `10`, then call `GetAllMessages`. -/
def handleListMessages (kv : KV) (dsid page limit : Int) : List Message :=
  let page := if page < 0 then 0 else page
  let limit := if limit ≤ 0 ∨ 100 < limit then 10 else limit
  getAllMessages kv dsid page limit

/-- `LevelDBDatabase.GetLatestMessage`: looks at the single highest key of the
range; any failure to parse/fetch/decode is returned as an error. -/
def getLatestMessage (kv : KV) (dataStructureID : Int) : Except String (Message × Bool) :=
  let pfx := "index:" ++ intRepr dataStructureID ++ ":"
  match (kvKeysPfx kv pfx).getLast? with
  | none => .error "leveldb: not found"
  | some key =>
    match splitColon key with
    | _ :: _ :: _ :: hash :: _ =>
      match kvGet kv ("data:" ++ hash) with
      | none => .error "leveldb: not found"
      | some (.msg m) =>
        match getSignatures kv m.hash with
        | (some sigs, true) => .ok ({ m with signatures := some sigs }, true)
        | _ => .ok (m, false)
      | some _ => .error "failed to unmarshal message"
    | _ => .error "invalid index key format"

/-- The spec's words for `GetLatestMessage` (§4.4): "return the highest key in
`index:<dsId>:` that joins to a decodable record; existence=true iff a
signature map is also present" — stated as a search from the highest key down,
for comparison with the code's behaviour. -/
def specLatestLoop (kv : KV) : List String → Option (Message × Bool)
  | [] => none
  | k :: ks =>
    match splitColon k with
    | _ :: _ :: _ :: hash :: _ =>
      match kvGet kv ("data:" ++ hash) with
      | some (.msg m) => some (joinSignatures kv m, (getSignatures kv m.hash).2)
      | _ => specLatestLoop kv ks
    | _ => specLatestLoop kv ks

def specGetLatestMessage (kv : KV) (dsId : Int) : Option (Message × Bool) :=
  specLatestLoop kv (kvKeysPfx kv ("index:" ++ intRepr dsId ++ ":")).reverse

/-- `strconv.ParseInt(s, 10, 64)` (overflow not modelled). -/
def decDigitsVal? : List Char → Option Nat
  | [] => none
  | [c] => if '0' ≤ c ∧ c ≤ '9' then some (c.toNat - 48) else none
  | c :: rest =>
    match (if '0' ≤ c ∧ c ≤ '9' then some (c.toNat - 48) else none), decDigitsVal? rest with
    | some d, some r => some (d * 10 ^ rest.length + r)
    | _, _ => none

def strToInt? (s : String) : Option Int :=
  match s.data with
  | '-' :: rest => (decDigitsVal? rest).map (fun n => -(n : Int))
  | '+' :: rest => (decDigitsVal? rest).map (fun n => (n : Int))
  | l => (decDigitsVal? l).map (fun n => (n : Int))

/-- The loop body of `GetDataStructureStats`: `MessageCount` is incremented
for every key in the range before any parsing. -/
def gdsLoop (kv : KV) (threshold : Int) : List String → DataStructureStats → DataStructureStats
  | [], st => st
  | k :: ks, st =>
    let st := { st with messageCount := st.messageCount + 1 }
    match splitColon k with
    | _ :: _ :: tsStr :: hash :: _ =>
      match strToInt? tsStr with
      | none => gdsLoop kv threshold ks st
      | some ts =>
        let st := if st.lastMessageTime < ts then { st with lastMessageTime := ts } else st
        let st :=
          match getSignatures kv hash with
          | (some sigs, true) =>
            if threshold ≤ (sigs.length : Int) then
              if st.lastConfirmedTime < ts then
                { st with lastConfirmedTime := ts, lastConfirmedHash := hash }
              else st
            else st
          | _ => st
        gdsLoop kv threshold ks st
    | _ => gdsLoop kv threshold ks st

/-- `LevelDBDatabase.GetDataStructureStats`. -/
def getDataStructureStats (kv : KV) (id threshold : Int) : DataStructureStats :=
  gdsLoop kv threshold (kvKeysPfx kv ("index:" ++ intRepr id ++ ":")) ⟨id, 0, 0, 0, ""⟩

/-! ### Canonical hashing (`SolidityKeccak256`, `calculateHash`) -/

/-- The typed values the packer accepts (`[32]byte`, `string`, `*big.Int`,
`uint64`, `[20]byte`). -/
inductive PackVal where
  | vbytes32 : List Nat → PackVal
  | vstr : String → PackVal
  | vuint256 : Int → PackVal
  | vuint64 : Nat → PackVal
  | vaddr : List Nat → PackVal
deriving DecidableEq

/-- `⌊log₂ n⌋` via explicit fuel (any `fuel ≥ n` is enough), kept
kernel-computable. -/
def log2Fuel : Nat → Nat → Nat
  | 0, _ => 0
  | fuel + 1, n => if n ≤ 1 then 0 else log2Fuel fuel (n / 2) + 1

def natLog2 (n : Nat) : Nat := log2Fuel n n

/-- Length in bytes of `big.Int.Bytes()` (minimal big-endian, empty for 0). -/
def byteLen (n : Nat) : Nat := if n = 0 then 0 else natLog2 n / 8 + 1

/-- `big.Int.Bytes()`: minimal big-endian bytes of the absolute value. -/
def natBytesBE (n : Nat) : List Nat :=
  (List.range (byteLen n)).map fun i => n / 256 ^ (byteLen n - 1 - i) % 256

def bigIntBytes (v : Int) : List Nat := natBytesBE v.natAbs

/-- `padTo32Bytes`: left-pad with zeros to 32 bytes, panicking when longer. -/
def padTo32Bytes (bs : List Nat) : Except String (List Nat) :=
  if 32 < bs.length then .error "data too long for 32 bytes"
  else .ok (List.replicate (32 - bs.length) 0 ++ bs)

/-- `binary.BigEndian.PutUint64`. -/
def u64BytesBE (n : Nat) : List Nat := (List.range 8).map fun i => n / 256 ^ (7 - i) % 256

/-- One arm of the packing switch in `SolidityKeccak256`; panics are errors. -/
def packOne (typ : String) (v : PackVal) : Except String (List Nat) :=
  match typ with
  | "bytes32" => match v with
    | .vbytes32 bs => .ok bs
    | _ => .error "invalid bytes32 value"
  | "string" => match v with
    | .vstr s => .ok (strUtf8 s)
    | _ => .error "invalid string value"
  | "uint256" => match v with
    | .vuint256 n => padTo32Bytes (bigIntBytes n)
    | _ => .error "invalid uint256 value"
  | "uint64" => match v with
    | .vuint64 n => padTo32Bytes (u64BytesBE n)
    | _ => .error "invalid uint64 value"
  | "address" => match v with
    | .vaddr bs => padTo32Bytes bs
    | _ => .error "invalid address value"
  | other => .error ("unsupported type: " ++ other)

def packAll : List String → List PackVal → Except String (List Nat)
  | [], [] => .ok []
  | t :: ts, v :: vs => do
    let b ← packOne t v
    let rest ← packAll ts vs
    .ok (b ++ rest)
  | _, _ => .error "types and values length mismatch"

/-- `SolidityKeccak256`, parameterized by the keccak256 function. -/
def solidityKeccak256 (keccak : List Nat → List Nat) (types : List String)
    (values : List PackVal) : Except String (List Nat) :=
  (packAll types values).map keccak

/-- `calculateHash(data, timestamp)`: keccak over the packed JSON encoding of
`data` and the `uint256` timestamp, formatted `%x` (lowercase hex). -/
def calculateHash (keccak : List Nat → List Nat) (data : List JVal) (timestamp : Int) :
    Except String String := do
  let jsonData := jsonArr data
  let h ← solidityKeccak256 keccak ["string", "uint256"] [.vstr jsonData, .vuint256 timestamp]
  .ok (hexOfBytes h)

/-! ### `FloatToWei` and `math/big` float arithmetic

`big.Float` stores a binary mantissa and exponent and rounds every operation
to the receiver's precision. In `FloatToWei`: `SetFloat64(price)` is exact
(53-bit mantissa); the `10^18` multiplier from `SetInt` is exact at its
precision `max(bitlen 10^18, 64) = 64`; `Mul` on the zero-precision receiver
`wei` rounds the exact mantissa product to `max(53, 64) = 64` significand
bits with the default `ToNearestEven` mode; `wei.Int` truncates toward zero.
We model the value `price = m * 2^e` and follow that algorithm exactly:
the exact product is `(m * 10^18) * 2^e`, and rounding to 64 bits keeps the
top 64 bits of `m * 10^18`, rounding nearest-even on the cut. -/

/-- A finite non-negative `float64`: value `m * 2^e`. -/
structure FloatRep where
  m : Nat
  e : Int
deriving DecidableEq

/-- `2^i` over `ℚ` for an integer `i`, kept kernel-computable. -/
def qpow2 (i : Int) : ℚ := if 0 ≤ i then ((2 ^ i.toNat : Nat) : ℚ) else 1 / ((2 ^ (-i).toNat : Nat) : ℚ)

def FloatRep.val (p : FloatRep) : ℚ := (p.m : ℚ) * qpow2 p.e

/-- Truncation toward zero of `n * 2^e` for a natural mantissa (equals the
floor since the value is non-negative). -/
def shiftTrunc (n : Nat) (e : Int) : Int :=
  if 0 ≤ e then ((n * 2 ^ e.toNat : Nat) : Int) else ((n / 2 ^ (-e).toNat : Nat) : Int)

/-- `FloatToWei(price)` for `price = m * 2^e`: round the exact product
mantissa `m * 10^18` to 64 bits (nearest-even), then truncate toward zero. -/
def floatToWei (p : FloatRep) : Int :=
  let M := p.m * 10 ^ 18
  if M = 0 then 0
  else
    let l := natLog2 M
    if l ≤ 63 then shiftTrunc M p.e
    else
      let sh := l - 63
      let q := M / 2 ^ sh
      let r := M % 2 ^ sh
      let n := if 2 ^ sh < 2 * r then q + 1
        else if 2 * r < 2 ^ sh then q
        else if q % 2 = 0 then q else q + 1
      shiftTrunc n (p.e + sh)

/-- The spec's `FloatToWei(p) = floor(p * 10^18)` "performed in arbitrary
precision", for comparison with the code's behaviour. -/
def specFloorWei (p : FloatRep) : Int := ⌊p.val * (10 ^ 18 : ℚ)⌋

/-! ### `StockQuoteMessageBuilder.BuildMessage` -/

structure StockQuoteMessageBuilder where
  ticker : String
  structureID : String
  destinationChain : Int
  structureFields : List (String × String)

/-- The `fieldValues` map: a lookup that returns Go's nil interface (`jnull`)
for a field name outside the four populated keys. -/
def builderFieldValues (b : StockQuoteMessageBuilder) (priceScaled : Int) (timestamp : Int)
    (name : String) : JVal :=
  if name = "ticker" then .jstr b.ticker
  else if name = "price" then .jstr (intRepr priceScaled)
  else if name = "destination_chain" then .jint b.destinationChain
  else if name = "timestamp" then .jint timestamp
  else .jnull

/-- `BuildMessage(price)`; `now` is the ambient `time.Now().Unix()`. -/
def buildMessage (keccak : List Nat → List Nat) (b : StockQuoteMessageBuilder)
    (price : FloatRep) (now : Int) : Except String SignRequest := do
  let priceScaled := floatToWei price
  let timestamp := now
  let dataStructure := b.structureFields.map (fun f => f.2)
  let dataStructureMeta := b.structureFields.map (fun f => f.1)
  let data := b.structureFields.map (fun f => builderFieldValues b priceScaled timestamp f.1)
  let hash ← calculateHash keccak data timestamp
  let dataStructureId := match strToInt? b.structureID with
    | some id => id
    | none => 0
  .ok ⟨"sign_request", hash, data, dataStructure, dataStructureMeta, dataStructureId, timestamp⟩

/-! ### Coordinator (`OperatorNode`) -/

structure PendingRequest where
  tstamp : Nat
  signers : List String
  data : SignRequest
deriving DecidableEq

structure CoordState where
  pending : List (String × PendingRequest)
  db : KV
deriving DecidableEq

/-- The ambient cryptographic environment: the trusted address list, the
keccak256 function, and `verifySignature` (hex decode + length check +
`SigToPub` + `PubkeyToAddress`, returning the recovered `Address.Hex()`),
abstracted as an unknown pure function returning `none` on any failure. -/
structure Env where
  trusted : List String
  keccak : List Nat → List Nat
  recover : List Nat → String → Option String

/-- `OperatorNode.threshold()`. -/
def threshold (trusted : List String) : Nat := trusted.length / 2 + 1

/-- `accounts.TextHash`: `keccak256("\x19Ethereum Signed Message:\n" + len + data)`. -/
def textHash (keccak : List Nat → List Nat) (bs : List Nat) : List Nat :=
  keccak (strUtf8 ("\x19Ethereum Signed Message:\n" ++ natRepr bs.length) ++ bs)

def isTrustedAddr (trusted : List String) (a : String) : Bool :=
  trusted.any fun t => eqFold a t

/-- `OperatorNode.handleSignResponse`; an `Except.error` is a `panic` (the
hex-decode of the hash field panics on malformed hex). `putOk` is the
storage-write oracle for `StoreSignature`. -/
def handleSignResponse (env : Env) (putOk : Bool) (st : CoordState) (resp : SignResponse) :
    Except String CoordState :=
  match hexDecode? resp.hash with
  | none => .error "panic: encoding/hex: invalid byte"
  | some hashBytes =>
    let message := textHash env.keccak hashBytes
    match env.recover message resp.signature with
    | none => .ok st
    | some signerAddress =>
      if !isTrustedAddr env.trusted signerAddress then .ok st
      else
        match aGet st.pending resp.hash with
        | none => .ok st
        | some req =>
          match storeSignature putOk st.db resp.hash signerAddress resp.signature with
          | .error _ => .ok st
          | .ok db' =>
            let req' := { req with signers := sInsert req.signers signerAddress }
            let pending' :=
              if threshold env.trusted ≤ req'.signers.length ∧
                 req'.signers.length = env.trusted.length
              then aDel st.pending resp.hash
              else aSet st.pending resp.hash req'
            .ok ⟨pending', db'⟩

/-- `OperatorNode.handleSignRequest`: idempotent insert into `pending`. -/
def handleSignRequestC (now : Nat) (st : CoordState) (req : SignRequest) : CoordState :=
  match aGet st.pending req.hash with
  | some _ => st
  | none => { st with pending := aSet st.pending req.hash ⟨now, [], req⟩ }

/-- `OperatorNode.cleanupExpiredRequests`. -/
def cleanupExpiredRequests (now expiry : Nat) (st : CoordState) : CoordState :=
  { st with pending := st.pending.filter fun kr => !(expiry < now - kr.2.tstamp) }

/-- The reachable coordinator states: start empty; take steps through the
inbound handlers, the expiry sweeper, and the collector's `StoreData` writes
into the shared database (a `handleSignResponse` panic has no successor). -/
inductive Reach (env : Env) : CoordState → Prop where
  | init : Reach env ⟨[], ([] : KV)⟩
  | signRequest : ∀ st now req, Reach env st → Reach env (handleSignRequestC now st req)
  | signResponse : ∀ st st' putOk resp, Reach env st →
      handleSignResponse env putOk st resp = .ok st' → Reach env st'
  | cleanup : ∀ st now expiry, Reach env st → Reach env (cleanupExpiredRequests now expiry st)
  | dataWrite : ∀ st hash data ds meta ts dsId, Reach env st →
      Reach env { st with db := storeData st.db hash data ds meta ts dsId }

/-! ### Signer node (`Node.handleSignRequest`) -/

/-- The signer node's view of a request (its `SignRequest` has only these
fields). -/
structure SignRequestWire where
  type : String
  hash : String
deriving DecidableEq

/-- The signer environment: `Signer.Sign` (returning `none` on error) and
`Signer.Address()`. -/
structure SignerEnv where
  keccak : List Nat → List Nat
  sign : List Nat → Option String
  address : String

/-- `Node.handleSignRequest`: an `Except.error` is a `panic` (malformed hex in
the hash panics); a sign error drops the request; otherwise the published
`SignResponse` is returned. -/
def signerHandleSignRequest (env : SignerEnv) (req : SignRequestWire) :
    Except String (Option SignResponse) :=
  match hexDecode? req.hash with
  | none => .error "panic: encoding/hex: invalid byte"
  | some hashBytes =>
    let message := textHash env.keccak hashBytes
    match env.sign message with
    | none => .ok none
    | some signature => .ok (some ⟨"sign_response", req.hash, signature, env.address⟩)

/-! ### Spec-side definitions used to state claims -/

/-- The spec's "32-byte big-endian, left-padded" encoding of a `uint256`
value (stated for the non-negative timestamps the builder produces). -/
def specBe32 (t : Int) : List Nat :=
  (List.range 32).map fun i => t.toNat / 256 ^ (31 - i) % 256

/-- The C2 invariant over a coordinator state: every stored signature was
recovered (via `ecrecover` over the text-hash of the stored hash) to the
address it is keyed under, that address case-insensitively matches a trusted
address, and no hash has two entries for one recovered address. -/
def SigInv (env : Env) (st : CoordState) : Prop :=
  ∀ h sm, kvGet st.db ("sig:" ++ h) = some (.sigmap sm) →
    ((sm.map Prod.fst).Nodup ∧
      ∀ e ∈ sm, isTrustedAddr env.trusted e.1 = true ∧
        ∃ hb, hexDecode? h = some hb ∧
          env.recover (textHash env.keccak hb) e.2 = some e.1)

/-! ## Lemmas: association lists and the KV store -/

theorem aGet_aSet_self {α : Type} (l : List (String × α)) (k : String) (v : α) :
    aGet (aSet l k v) k = some v := by
  induction l with
  | nil => simp [aSet, aGet]
  | cons e rest ih =>
    by_cases h : k = e.1
    · simp [aSet, aGet, h]
    · simp [aSet, aGet, h, ih]

theorem aGet_aSet_ne {α : Type} (l : List (String × α)) (k k' : String) (v : α)
    (h : k' ≠ k) : aGet (aSet l k v) k' = aGet l k' := by
  induction l with
  | nil => simp [aSet, aGet, h]
  | cons e rest ih =>
    by_cases he : k = e.1
    · subst he; simp [aSet, aGet, h]
    · by_cases he' : k' = e.1 <;> simp [aSet, aGet, he, he', ih]

theorem mem_aSet {α : Type} {l : List (String × α)} {k : String} {v : α} {e : String × α}
    (h : e ∈ aSet l k v) : e = (k, v) ∨ e ∈ l := by
  induction l with
  | nil => simpa [aSet] using h
  | cons f rest ih =>
    by_cases hf : k = f.1
    · rcases (by simpa [aSet, hf] using h : e = (k, v) ∨ e ∈ rest) with h1 | h1
      · exact Or.inl h1
      · exact Or.inr (List.mem_cons_of_mem _ h1)
    · rcases (by simpa [aSet, hf] using h : e = f ∨ e ∈ aSet rest k v) with h1 | h1
      · subst h1; exact Or.inr (List.mem_cons_self _ _)
      · rcases ih h1 with h2 | h2
        · exact Or.inl h2
        · exact Or.inr (List.mem_cons_of_mem _ h2)

theorem mem_keys_aSet {α : Type} {l : List (String × α)} {k x : String} {v : α}
    (h : x ∈ (aSet l k v).map Prod.fst) : x ∈ l.map Prod.fst ∨ x = k := by
  rcases List.mem_map.1 h with ⟨e, he, hx⟩
  rcases mem_aSet he with h1 | h1
  · subst h1; exact Or.inr hx.symm
  · exact Or.inl (hx ▸ List.mem_map_of_mem _ h1)

theorem keys_nodup_aSet {α : Type} {l : List (String × α)} {k : String} {v : α}
    (h : (l.map Prod.fst).Nodup) : ((aSet l k v).map Prod.fst).Nodup := by
  induction l with
  | nil => simp [aSet]
  | cons f rest ih =>
    by_cases hf : k = f.1
    · simpa [aSet, hf] using h
    · simp only [List.map_cons, List.nodup_cons] at h
      have hrw : aSet (f :: rest) k v = f :: aSet rest k v := by simp [aSet, hf]
      rw [hrw, List.map_cons, List.nodup_cons]
      refine ⟨?_, ih h.2⟩
      intro hmem
      rcases mem_keys_aSet hmem with h1 | h1
      · exact h.1 h1
      · exact hf h1.symm

theorem kvGet_kvPut_self (kv : KV) (k : String) (v : VVal) :
    kvGet (kvPut kv k v) k = some v := by
  induction kv with
  | nil => simp [kvPut, kvGet]
  | cons e rest ih =>
    by_cases hlt : strLt k e.1
    · simp [kvPut, kvGet, hlt]
    · by_cases he : k = e.1
      · subst he; simp [kvPut, kvGet, hlt]
      · simp [kvPut, kvGet, hlt, he, ih]

theorem kvGet_kvPut_ne (kv : KV) (k k' : String) (v : VVal) (h : k' ≠ k) :
    kvGet (kvPut kv k v) k' = kvGet kv k' := by
  induction kv with
  | nil => simp [kvPut, kvGet, h]
  | cons e rest ih =>
    by_cases hlt : strLt k e.1
    · simp [kvPut, kvGet, hlt, h]
    · by_cases he : k = e.1
      · subst he; simp [kvPut, kvGet, hlt, h]
      · by_cases he' : k' = e.1 <;> simp [kvPut, kvGet, hlt, he, he', ih]

/-- Two strings with different first characters differ. -/
theorem str_ne_of_head {a b : String} (h : a.data.head? ≠ b.data.head?) : a ≠ b :=
  fun e => h (e ▸ rfl)

theorem head_append_of_head {p : String} (r : String) {c : Char}
    (hp : p.data.head? = some c) : (p ++ r).data.head? = some c := by
  rw [String.data_append]
  cases hd : p.data with
  | nil => rw [hd] at hp; simp at hp
  | cons x t => rw [hd] at hp; simp at hp; simp [hd, hp]

/-- Folding the field-index puts over a list leaves unrelated keys unchanged. -/
theorem kvGet_foldl_fieldIdx_ne (dsId : Int) (hash : String) (l : List (String × JVal))
    (kv : KV) (q : String) (h : ∀ a ∈ l, q ≠ fieldIndexKey dsId a.1 a.2 hash) :
    kvGet (l.foldl (fun kv fv => kvPut kv (fieldIndexKey dsId fv.1 fv.2 hash) VVal.empty) kv) q =
      kvGet kv q := by
  induction l generalizing kv with
  | nil => rfl
  | cons a rest ih =>
    simp only [List.foldl_cons]
    rw [ih _ fun b hb => h b (List.mem_cons_of_mem _ hb),
      kvGet_kvPut_ne _ _ _ _ (h a (List.mem_cons_self _ _))]

/-- `StoreData` never touches a `sig:` key. -/
theorem kvGet_storeData_sig (kv : KV) (hash : String) (data : List JVal)
    (ds meta : List String) (ts : Int) (dsId : Int) (x : String) :
    kvGet (storeData kv hash data ds meta ts dsId) ("sig:" ++ x) =
      kvGet kv ("sig:" ++ x) := by
  have hsig : ("sig:" ++ x).data.head? = some 's' := head_append_of_head x rfl
  have hne_ds : ("sig:" ++ x) ≠ "ds:" ++ intRepr dsId :=
    str_ne_of_head (by rw [hsig, head_append_of_head _ (rfl : ("ds:" : String).data.head? = some 'd')]; decide)
  have hne_data : ("sig:" ++ x) ≠ "data:" ++ hash :=
    str_ne_of_head (by rw [hsig, head_append_of_head _ (rfl : ("data:" : String).data.head? = some 'd')]; decide)
  have hidx : ∀ r : String, ("sig:" ++ x) ≠ "index:" ++ r := fun r =>
    str_ne_of_head (by rw [hsig, head_append_of_head _ (rfl : ("index:" : String).data.head? = some 'i')]; decide)
  simp only [storeData]
  rw [kvGet_foldl_fieldIdx_ne dsId hash _ _ _
    (fun a _ => by simp only [fieldIndexKey, String.append_assoc]; exact hidx _)]
  rw [kvGet_kvPut_ne _ _ _ _ (by simp only [tsIndexKey, String.append_assoc]; exact hidx _)]
  rw [kvGet_kvPut_ne _ _ _ _ hne_data]
  cases hds : kvGet kv ("ds:" ++ intRepr dsId) with
  | some v => rfl
  | none => rw [kvGet_kvPut_ne _ _ _ _ hne_ds]

/-! ## Lemmas: strings, digits, and key disjointness -/

theorem str_append_cancel_left {p a b : String} (h : p ++ a = p ++ b) : a = b := by
  have hd := congrArg String.data h
  rw [String.data_append, String.data_append] at hd
  exact String.ext (List.append_cancel_left hd)

theorem digChar_ne_colon (m : Nat) : digChar m ≠ ':' := by
  unfold digChar
  split_ifs <;> decide

theorem mem_natDigitsAux {c : Char} : ∀ fuel n, c ∈ natDigitsAux fuel n → ∃ m, c = digChar m := by
  intro fuel
  induction fuel with
  | zero => intro n h; simp [natDigitsAux] at h
  | succ fuel ih =>
    intro n h
    by_cases hn : n < 10
    · simp [natDigitsAux, hn] at h; exact ⟨n, h⟩
    · simp only [natDigitsAux, hn, if_false, List.mem_append, List.mem_singleton] at h
      rcases h with h | h
      · exact ih _ h
      · exact ⟨n % 10, h⟩

theorem colon_not_mem_natRepr (n : Nat) : ':' ∉ (natRepr n).data := by
  intro h
  rcases mem_natDigitsAux _ _ h with ⟨m, hm⟩
  exact digChar_ne_colon m hm.symm

theorem colon_not_mem_intRepr (i : Int) : ':' ∉ (intRepr i).data := by
  rw [intRepr]
  split
  · rw [String.data_append]
    intro h
    rcases List.mem_append.1 h with h | h
    · simp at h
    · exact colon_not_mem_natRepr _ h
  · exact colon_not_mem_natRepr _

/-- Splitting at the first colon: two colon-free prefixes followed by a colon
determine each other. -/
theorem colonfree_split : ∀ {p1 p2 r1 r2 : List Char}, ':' ∉ p1 → ':' ∉ p2 →
    p1 ++ ':' :: r1 = p2 ++ ':' :: r2 → p1 = p2 ∧ r1 = r2 := by
  intro p1
  induction p1 with
  | nil =>
    intro p2 r1 r2 _ h2 he
    cases p2 with
    | nil => simpa using he
    | cons b bs =>
      exfalso
      simp only [List.nil_append, List.cons_append, List.cons.injEq] at he
      exact h2 (he.1 ▸ List.mem_cons_self _ _)
  | cons a as ih =>
    intro p2 r1 r2 h1 h2 he
    cases p2 with
    | nil =>
      exfalso
      simp only [List.nil_append, List.cons_append, List.cons.injEq] at he
      exact h1 (he.1 ▸ List.mem_cons_self _ _)
    | cons b bs =>
      simp only [List.cons_append, List.cons.injEq] at he
      have h1' : ':' ∉ as := fun hx => h1 (List.mem_cons_of_mem _ hx)
      have h2' : ':' ∉ bs := fun hx => h2 (List.mem_cons_of_mem _ hx)
      obtain ⟨hp, hr⟩ := ih h1' h2' he.2
      exact ⟨by rw [he.1, hp], hr⟩

/-- String-level consequence: a colon-free segment followed by `":" ++ h`
cannot equal a colon-free segment followed by `":" ++ (v ++ ":" ++ h)`. -/
theorem key_suffix_ne (t f v h : String) (ht : ':' ∉ t.data) (hf : ':' ∉ f.data) :
    t ++ (":" ++ h) ≠ f ++ (":" ++ (v ++ (":" ++ h))) := by
  intro he
  have hd := congrArg String.data he
  simp only [String.data_append] at hd
  have hd' : t.data ++ ':' :: h.data = f.data ++ ':' :: (v.data ++ ':' :: h.data) := by
    simpa using hd
  obtain ⟨-, hr⟩ := colonfree_split ht hf hd'
  have hlen := congrArg List.length hr
  simp at hlen
  omega

theorem sInsert_of_mem {l : List String} {a : String} (h : a ∈ l) : sInsert l a = l := by
  simp [sInsert, h]

theorem mem_sInsert {l : List String} {a x : String} (h : x ∈ sInsert l a) :
    x ∈ l ∨ x = a := by
  by_cases ha : a ∈ l
  · exact Or.inl (sInsert_of_mem ha ▸ h)
  · rw [sInsert, if_neg ha] at h
    rcases List.mem_append.1 h with h | h
    · exact Or.inl h
    · exact Or.inr (List.mem_singleton.1 h)

theorem mem_aSet_self {α : Type} (l : List (String × α)) (k : String) (v : α) :
    (k, v) ∈ aSet l k v := by
  induction l with
  | nil => simp [aSet]
  | cons e rest ih =>
    by_cases he : k = e.1
    · simp [aSet, he]
    · simp only [aSet, he, if_neg, not_false_iff]
      exact List.mem_cons_of_mem _ ih

theorem aGet_aDel {α : Type} (l : List (String × α)) (k k' : String) :
    aGet (aDel l k) k' = if k' = k then none else aGet l k' := by
  induction l with
  | nil => simp [aDel, aGet]
  | cons e rest ih =>
    by_cases he : e.1 = k
    · have : aDel (e :: rest) k = aDel rest k := by simp [aDel, he]
      rw [this, ih]
      by_cases hk : k' = k
      · simp [hk]
      · have : k' ≠ e.1 := fun h => hk (h.trans he)
        simp [hk, aGet, this]
    · have : aDel (e :: rest) k = e :: aDel rest k := by simp [aDel, he]
      rw [this]
      by_cases hke : k' = e.1
      · have hk : ¬ k' = k := fun h => he (hke.symm.trans h)
        simp [aGet, hke, hk, he]
      · simp only [aGet, hke, if_neg, not_false_iff, ih]

/-! ## Lemmas: dissecting `handleSignResponse` -/

/-- Every successful run of `handleSignResponse` either changes nothing, or
went through the full accept path: decodable hash, successful recovery of a
trusted address, an existing pending entry, and a successful store write;
in that case the new database and pending table are fully described. -/
theorem handleSignResponse_ok_cases {env : Env} {putOk : Bool} {st : CoordState}
    {resp : SignResponse} {st' : CoordState}
    (h : handleSignResponse env putOk st resp = .ok st') :
    st' = st ∨
    ∃ hb a req sigs0,
      hexDecode? resp.hash = some hb ∧
      env.recover (textHash env.keccak hb) resp.signature = some a ∧
      isTrustedAddr env.trusted a = true ∧
      aGet st.pending resp.hash = some req ∧
      putOk = true ∧
      (kvGet st.db ("sig:" ++ resp.hash) = some (.sigmap sigs0) ∨
        (kvGet st.db ("sig:" ++ resp.hash) = none ∧ sigs0 = [])) ∧
      st'.db = kvPut st.db ("sig:" ++ resp.hash) (.sigmap (aSet sigs0 a resp.signature)) ∧
      st'.pending = (if threshold env.trusted ≤ (sInsert req.signers a).length ∧
          (sInsert req.signers a).length = env.trusted.length
        then aDel st.pending resp.hash
        else aSet st.pending resp.hash { req with signers := sInsert req.signers a }) := by
  rw [handleSignResponse] at h
  cases hdec : hexDecode? resp.hash with
  | none => rw [hdec] at h; exact absurd h (by simp)
  | some hb =>
    rw [hdec] at h
    simp only at h
    cases hrec : env.recover (textHash env.keccak hb) resp.signature with
    | none => rw [hrec] at h; exact Or.inl (by cases h; rfl)
    | some a =>
      rw [hrec] at h
      simp only at h
      by_cases htr : isTrustedAddr env.trusted a = true
      · rw [htr] at h
        simp only [Bool.not_true, Bool.false_eq_true, if_false] at h
        cases hpend : aGet st.pending resp.hash with
        | none => rw [hpend] at h; exact Or.inl (by cases h; rfl)
        | some req =>
          rw [hpend] at h
          simp only at h
          rw [storeSignature] at h
          cases hget : kvGet st.db ("sig:" ++ resp.hash) with
          | none =>
            rw [hget] at h
            cases putOk with
            | false => simp only [Bool.false_eq_true, if_false] at h; exact Or.inl (by cases h; rfl)
            | true =>
              simp only [if_true] at h
              refine Or.inr ⟨hb, a, req, [], rfl, hrec, htr, rfl, rfl,
                Or.inr ⟨rfl, rfl⟩, ?_, ?_⟩
              · cases h; rfl
              · cases h; rfl
          | some v =>
            cases v with
            | sigmap sigs0 =>
              rw [hget] at h
              cases putOk with
              | false => simp only [Bool.false_eq_true, if_false] at h; exact Or.inl (by cases h; rfl)
              | true =>
                simp only [if_true] at h
                refine Or.inr ⟨hb, a, req, sigs0, rfl, hrec, htr, rfl, rfl,
                  Or.inl rfl, ?_, ?_⟩
                · cases h; rfl
                · cases h; rfl
            | empty => rw [hget] at h; exact Or.inl (by cases h; rfl)
            | msg m => rw [hget] at h; exact Or.inl (by cases h; rfl)
            | dsv d => rw [hget] at h; exact Or.inl (by cases h; rfl)
            | junk => rw [hget] at h; exact Or.inl (by cases h; rfl)
      · rw [Bool.not_eq_true] at htr
        rw [htr] at h
        simp only [Bool.not_false, if_true] at h
        exact Or.inl (by cases h; rfl)

/-! ## Lemmas: `FloatToWei` arithmetic -/

theorem qpow2_nonneg_eq (k : Nat) : qpow2 (k : Int) = ((2 ^ k : Nat) : ℚ) := by
  simp [qpow2]

theorem floor_natCast_div (a b : Nat) : ⌊(a : ℚ) / (b : ℚ)⌋ = ((a / b : Nat) : Int) := by
  rw [Rat.floor_natCast_div_natCast]
  exact (Int.natCast_div a b).symm

theorem shiftTrunc_mul_pow (a k : Nat) (e : Int) :
    shiftTrunc (a * 2 ^ k) e = shiftTrunc a (e + k) := by
  have h2pos : ∀ m : Nat, 0 < 2 ^ m := fun m => pow_pos (by norm_num) m
  by_cases he : 0 ≤ e
  · have hek : 0 ≤ e + (k : Int) := by omega
    rw [shiftTrunc, if_pos he, shiftTrunc, if_pos hek]
    have hsum : (e + (k : Int)).toNat = e.toNat + k := by omega
    rw [hsum]
    push_cast
    ring
  · rw [shiftTrunc, if_neg he]
    by_cases hek : 0 ≤ e + (k : Int)
    · rw [shiftTrunc, if_pos hek]
      have hexp : k = (e + (k : Int)).toNat + (-e).toNat := by omega
      calc ((a * 2 ^ k / 2 ^ (-e).toNat : ℕ) : ℤ)
          = ((a * (2 ^ ((e + (k : Int)).toNat) * 2 ^ ((-e).toNat)) / 2 ^ (-e).toNat : ℕ) : ℤ) := by
            rw [← pow_add, ← hexp]
        _ = ((a * 2 ^ ((e + (k : Int)).toNat) : ℕ) : ℤ) := by
            rw [← mul_assoc, Nat.mul_div_cancel _ (h2pos _)]
    · rw [shiftTrunc, if_neg hek]
      have h1 : (2 : ℕ) ^ ((-e).toNat) = 2 ^ k * 2 ^ ((-(e + (k : Int))).toNat) := by
        rw [← pow_add]
        congr 1
        omega
      rw [h1, mul_comm a (2 ^ k), Nat.mul_div_mul_left _ _ (h2pos k)]

/-- The spec-side floor agrees with the truncated shift of the exact product
mantissa (so it can be evaluated without rational floors). -/
theorem specFloorWei_eq (p : FloatRep) :
    specFloorWei p = shiftTrunc (p.m * 10 ^ 18) p.e := by
  rw [specFloorWei, FloatRep.val]
  by_cases he : 0 ≤ p.e
  · rw [qpow2, if_pos he, shiftTrunc, if_pos he]
    have hcast : (p.m : ℚ) * ((2 ^ p.e.toNat : Nat) : ℚ) * (10 ^ 18 : ℚ) =
        ((p.m * 10 ^ 18 * 2 ^ p.e.toNat : Nat) : ℚ) := by
      push_cast
      ring
    rw [hcast, Int.floor_natCast]
  · rw [qpow2, if_neg he, shiftTrunc, if_neg he]
    have hcast : (p.m : ℚ) * (1 / ((2 ^ (-p.e).toNat : Nat) : ℚ)) * (10 ^ 18 : ℚ) =
        ((p.m * 10 ^ 18 : Nat) : ℚ) / ((2 ^ (-p.e).toNat : Nat) : ℚ) := by
      push_cast
      ring
    rw [hcast, floor_natCast_div]

/-! ## Lemmas: `GetAllMessages` skip behaviour -/

/-- A non-positive skip counter never skips: any two non-positive skip values
produce the same iteration. -/
theorem gamLoop_skip_nonpos (kv : KV) (limit : Int) :
    ∀ (keys : List String) (s1 s2 : Int) (count : Nat) (acc : List Message),
    s1 ≤ 0 → s2 ≤ 0 →
    gamLoop kv limit keys s1 count acc = gamLoop kv limit keys s2 count acc := by
  intro keys
  induction keys with
  | nil => intro s1 s2 count acc h1 h2; rfl
  | cons k ks ih =>
    intro s1 s2 count acc h1 h2
    simp only [gamLoop]
    split
    · split
      · exact ih _ _ _ _ h1 h2
      · rw [if_neg (by omega : ¬ (0 : Int) < s1), if_neg (by omega : ¬ (0 : Int) < s2)]
        split
        · split
          · rfl
          · exact ih _ _ _ _ h1 h2
        · exact ih _ _ _ _ h1 h2
    · exact ih _ _ _ _ h1 h2

/-! ## Claims -/

/-- C3: the spec says a message whose hash is not valid hex is dropped with a
log and processing continues, and that no single inbound message crashes the
process. The code instead panics: both the signer's `handleSignRequest` and
the coordinator's `handleSignResponse` call `panic(err)` when
`hex.DecodeString` fails, e.g. on hash `"zz"` (evidence for the code_bug). -/
theorem C3_malformed_hex_panics :
    signerHandleSignRequest ⟨(fun _ => []), (fun _ => some "s"), "0xA"⟩
        ⟨"sign_request", "zz"⟩ = .error "panic: encoding/hex: invalid byte" ∧
    handleSignResponse ⟨["0xA"], (fun _ => []), (fun _ _ => some "0xA")⟩ true
        ⟨[], ([] : KV)⟩ ⟨"sign_response", "zz", "s", "p"⟩ =
      .error "panic: encoding/hex: invalid byte" :=
  ⟨by decide, by decide⟩

set_option maxRecDepth 10000 in
/-- C5 counterexample: at the `float64` value `1.17 = 658651445502935 · 2⁻⁴⁹`,
`FloatToWei` returns `1169999999999999929` (the product is rounded to 64
significand bits before truncation) while the exact arbitrary-precision floor
`⌊1.17 · 10¹⁸⌋` is `1169999999999999928`. -/
theorem C5_floatToWei_cex :
    floatToWei ⟨658651445502935, -49⟩ = 1169999999999999929 ∧
    specFloorWei ⟨658651445502935, -49⟩ = 1169999999999999928 ∧
    floatToWei ⟨658651445502935, -49⟩ ≠ specFloorWei ⟨658651445502935, -49⟩ := by
  refine ⟨by decide, ?_, ?_⟩
  · rw [specFloorWei_eq]; decide
  · rw [specFloorWei_eq]; decide

/-- C5 (amended): `FloatToWei(p)` is the truncation of `p·10¹⁸` rounded to 64
significand bits (nearest-even, `big.Float`'s precision for this product);
it equals the exact `floor(p·10¹⁸)` whenever the product mantissa `m·10¹⁸`
is zero, has at most 64 bits, or is divisible by `2^(⌊log₂⌋ - 63)` (i.e. the
product is exactly representable at 64-bit precision). -/
theorem C5_floatToWei_exact (p : FloatRep)
    (h : p.m * 10 ^ 18 = 0 ∨ natLog2 (p.m * 10 ^ 18) ≤ 63 ∨
      2 ^ (natLog2 (p.m * 10 ^ 18) - 63) ∣ p.m * 10 ^ 18) :
    floatToWei p = specFloorWei p := by
  rw [specFloorWei_eq]
  by_cases h0 : p.m * 10 ^ 18 = 0
  · have hm : p.m = 0 := by simpa using h0
    simp [floatToWei, hm, shiftTrunc]
  · by_cases hle : natLog2 (p.m * 10 ^ 18) ≤ 63
    · rw [floatToWei]
      simp only [if_neg h0, if_pos hle]
    · rcases h with h0' | hle' | hdvd
      · exact absurd h0' h0
      · exact absurd hle' hle
      · rw [floatToWei]
        simp only [if_neg h0, if_neg hle]
        have hpos : 0 < 2 ^ (natLog2 (p.m * 10 ^ 18) - 63) := pow_pos (by norm_num) _
        have hsh : p.m * 10 ^ 18 % 2 ^ (natLog2 (p.m * 10 ^ 18) - 63) = 0 :=
          Nat.dvd_iff_mod_eq_zero.1 hdvd
        rw [hsh]
        rw [if_neg (by simp), if_pos (by simp)]
        conv_rhs => rw [← Nat.div_mul_cancel hdvd]
        rw [shiftTrunc_mul_pow]

set_option maxRecDepth 10000 in
/-- C5 witness: at `p = 1.0` the product mantissa `10¹⁸` has 60 bits, so
`FloatToWei` agrees with the exact floor. -/
theorem C5_floatToWei_exact_w :
    natLog2 ((⟨1, 0⟩ : FloatRep).m * 10 ^ 18) ≤ 63 ∧
    floatToWei ⟨1, 0⟩ = specFloorWei ⟨1, 0⟩ :=
  ⟨by decide, C5_floatToWei_exact ⟨1, 0⟩ (Or.inr (Or.inl (by decide)))⟩

/-- C7 counterexample: `GetAllMessages` itself performs no argument
normalization. On a store with two records, a direct call with
`page = 0, limit = 0` returns a single record (the skip is `(0-1)·0 = 0` and
the `count >= limit` check fires right after the first append), which differs
from the ten-record page `page = 1, limit = 10`. -/
theorem C7_pagination_cex :
    getAllMessages
        [("data:h1", .msg ⟨"h1", [], [], [], none, 100⟩),
         ("data:h2", .msg ⟨"h2", [], [], [], none, 200⟩),
         ("index:5:100:h1", .empty), ("index:5:200:h2", .empty)] 5 0 0 ≠
      getAllMessages
        [("data:h1", .msg ⟨"h1", [], [], [], none, 100⟩),
         ("data:h2", .msg ⟨"h2", [], [], [], none, 200⟩),
         ("index:5:100:h1", .empty), ("index:5:200:h2", .empty)] 5 1 10 := by
  decide

/-- C7 (amended): `GetAllMessages` reverse-iterates the range and skips
`(page-1)*limit` joinable entries only while that counter is positive; the
`page<1` and `limit∉[1,100]` normalization lives in the HTTP handler
`handleList` (which clamps `page<0` to 0 and `limit` outside `[1,100]` to 10).
Through the handler, `page=0`/`limit=0` requests return the same records as
`page=1, limit=10`; and for any non-negative limit, `GetAllMessages` itself
treats `page=0` like `page=1` because a non-positive skip skips nothing. -/
theorem C7_pagination_norm :
    (∀ (kv : KV) (dsid : Int), handleListMessages kv dsid 0 0 = handleListMessages kv dsid 1 10) ∧
    (∀ (kv : KV) (dsid limit : Int), 0 ≤ limit →
      getAllMessages kv dsid 0 limit = getAllMessages kv dsid 1 limit) := by
  constructor
  · intro kv dsid
    simp only [handleListMessages]
    norm_num
    rw [getAllMessages, getAllMessages]
    exact gamLoop_skip_nonpos _ _ _ _ _ _ _ (by norm_num) (by norm_num)
  · intro kv dsid limit hl
    rw [getAllMessages, getAllMessages]
    exact gamLoop_skip_nonpos _ _ _ _ _ _ _ (by omega) (by omega)

/-- C7 witness: the page-0/page-1 agreement evaluated on a concrete store. -/
theorem C7_pagination_norm_w :
    getAllMessages
        [("data:h1", .msg ⟨"h1", [], [], [], none, 100⟩),
         ("index:5:100:h1", .empty)] 5 0 10 =
      getAllMessages
        [("data:h1", .msg ⟨"h1", [], [], [], none, 100⟩),
         ("index:5:100:h1", .empty)] 5 1 10 :=
  C7_pagination_norm.2 _ 5 10 (by norm_num)

/-- C8 counterexample: `GetLatestMessage` examines only the single highest key
of the `index:<dsId>:` range. Here the highest key is a field-index key whose
fourth segment (`"300"`) is not a hash, so the code returns an error, while
the spec's "highest key that joins to a decodable record" is the time-index
key joining to record `h1` (with existence=false, no signatures). -/
theorem C8_latest_cex :
    getLatestMessage
        [("data:h1", .msg ⟨"h1", [], [], [], none, 100⟩),
         ("index:5:100:h1", .empty), ("index:5:price:300:h1", .empty)] 5 =
      .error "leveldb: not found" ∧
    specGetLatestMessage
        [("data:h1", .msg ⟨"h1", [], [], [], none, 100⟩),
         ("index:5:100:h1", .empty), ("index:5:price:300:h1", .empty)] 5 =
      some (⟨"h1", [], [], [], none, 100⟩, false) :=
  ⟨by decide, by decide⟩

/-- C8 (amended): `GetLatestMessage` inspects only the single highest key of
the range: when that key's fourth segment joins to a decodable record the
call returns it (joined with signatures) and its existence flag is true iff a
signature map is present; when the data row is missing it returns an error
instead of falling back to lower keys. -/
theorem C8_latest_single_key (kv : KV) (dsId : Int) (key : String)
    (p1 p2 p3 hash : String) (rest : List String)
    (hlast : (kvKeysPfx kv ("index:" ++ intRepr dsId ++ ":")).getLast? = some key)
    (hsplit : splitColon key = p1 :: p2 :: p3 :: hash :: rest) :
    (∀ m : Message, kvGet kv ("data:" ++ hash) = some (.msg m) →
      getLatestMessage kv dsId = .ok (joinSignatures kv m, (getSignatures kv m.hash).2) ∧
      ((getSignatures kv m.hash).2 = true ↔
        ∃ sm, kvGet kv ("sig:" ++ m.hash) = some (.sigmap sm))) ∧
    (kvGet kv ("data:" ++ hash) = none →
      getLatestMessage kv dsId = .error "leveldb: not found") := by
  constructor
  · intro m hm
    constructor
    · cases hs : kvGet kv ("sig:" ++ m.hash) with
      | none => simp [getLatestMessage, hlast, hsplit, hm, getSignatures, joinSignatures, hs]
      | some v =>
        cases v <;>
          simp [getLatestMessage, hlast, hsplit, hm, getSignatures, joinSignatures, hs]
    · cases hs : kvGet kv ("sig:" ++ m.hash) with
      | none => simp [getSignatures, hs]
      | some v => cases v <;> simp [getSignatures, hs]
  · intro hm
    simp [getLatestMessage, hlast, hsplit, hm]

/-- C8 witness: on a store whose highest index key joins to record `h1` with
no signatures, `GetLatestMessage` returns it with existence=false. -/
theorem C8_latest_single_key_w :
    getLatestMessage
        [("data:h1", .msg ⟨"h1", [], [], [], none, 100⟩),
         ("index:5:100:h1", .empty)] 5 =
      .ok (⟨"h1", [], [], [], none, 100⟩, false) := by
  have h := (C8_latest_single_key
      [("data:h1", .msg ⟨"h1", [], [], [], none, 100⟩), ("index:5:100:h1", .empty)]
      5 "index:5:100:h1" "index" "5" "100" "h1" [] (by decide) (by decide)).1
      ⟨"h1", [], [], [], none, 100⟩ (by decide)
  exact h.1.trans (by decide)

/-- C10: when no signature object is stored for a hash, `GetSignatures`
returns a non-nil empty map with exists=false; exists=true is returned only
when a stored signature object decodes, in which case the returned map is
exactly the stored one. -/
theorem C10_getSignatures_absent (kv : KV) (h : String) :
    (kvGet kv ("sig:" ++ h) = none → getSignatures kv h = (some [], false)) ∧
    ((getSignatures kv h).2 = true →
      ∃ sm, kvGet kv ("sig:" ++ h) = some (.sigmap sm) ∧ (getSignatures kv h).1 = some sm) := by
  refine ⟨fun hk => by simp [getSignatures, hk], fun ht => ?_⟩
  cases hk : kvGet kv ("sig:" ++ h) with
  | none => rw [getSignatures, hk] at ht; simp at ht
  | some v =>
    cases v with
    | sigmap sm => exact ⟨sm, rfl, by simp [getSignatures, hk]⟩
    | empty => rw [getSignatures, hk] at ht; simp at ht
    | msg m => rw [getSignatures, hk] at ht; simp at ht
    | dsv d => rw [getSignatures, hk] at ht; simp at ht
    | junk => rw [getSignatures, hk] at ht; simp at ht

/-- C10 witness: the empty store has no signatures for `"h1"`. -/
theorem C10_getSignatures_absent_w :
    getSignatures ([] : KV) "h1" = (some [], false) :=
  (C10_getSignatures_absent [] "h1").1 rfl

/-- C4: in `handleSignResponse` (for a response whose hash decodes), a missing
pending entry drops the response with no store write and no state change; a
failed `StoreSignature` leaves the whole state unchanged (the entry remains
pending); and any address newly counted in a pending signer set is durable:
the store holds that signer's entry with this response's signature. -/
theorem C4_store_before_commit (env : Env) (st : CoordState) (resp : SignResponse)
    (putOk : Bool) (hb : List Nat) (hdec : hexDecode? resp.hash = some hb) :
    (aGet st.pending resp.hash = none → handleSignResponse env putOk st resp = .ok st) ∧
    (putOk = false → ∀ st', handleSignResponse env putOk st resp = .ok st' → st' = st) ∧
    (∀ st', handleSignResponse env putOk st resp = .ok st' →
      ∀ h' r', aGet st'.pending h' = some r' → ∀ ad ∈ r'.signers,
        (∃ r0, aGet st.pending h' = some r0 ∧ ad ∈ r0.signers) ∨
        (putOk = true ∧ ∃ sm, kvGet st'.db ("sig:" ++ h') = some (.sigmap sm) ∧
          (ad, resp.signature) ∈ sm)) := by
  refine ⟨?_, ?_, ?_⟩
  · intro hpend
    rw [handleSignResponse, hdec]
    simp only
    cases hrec : env.recover (textHash env.keccak hb) resp.signature with
    | none => rfl
    | some a =>
      cases htr : isTrustedAddr env.trusted a with
      | false => simp [htr]
      | true => simp [htr, hpend]
  · intro hfalse st' hok
    rcases handleSignResponse_ok_cases hok with h | ⟨hb', a, req, sigs0, _, _, _, _, hput, _⟩
    · exact h
    · rw [hfalse] at hput; cases hput
  · intro st' hok h' r' hr' ad had
    rcases handleSignResponse_ok_cases hok with
      h | ⟨hb', a, req, sigs0, hdec', hrec, htr, hpend, hput, hsig0, hdb, hpending⟩
    · subst h; exact Or.inl ⟨r', hr', had⟩
    · rw [hpending] at hr'
      by_cases hful : threshold env.trusted ≤ (sInsert req.signers a).length ∧
          (sInsert req.signers a).length = env.trusted.length
      · rw [if_pos hful, aGet_aDel] at hr'
        by_cases hh : h' = resp.hash
        · rw [if_pos hh] at hr'; cases hr'
        · rw [if_neg hh] at hr'; exact Or.inl ⟨r', hr', had⟩
      · rw [if_neg hful] at hr'
        by_cases hh : h' = resp.hash
        · subst hh
          rw [aGet_aSet_self] at hr'
          injection hr' with hr'
          subst hr'
          rcases mem_sInsert had with hin | hin
          · exact Or.inl ⟨req, hpend, hin⟩
          · subst hin
            refine Or.inr ⟨hput, aSet sigs0 ad resp.signature, ?_, mem_aSet_self _ _ _⟩
            rw [hdb]
            exact kvGet_kvPut_self _ _ _
        · rw [aGet_aSet_ne _ _ _ _ hh] at hr'
          exact Or.inl ⟨r', hr', had⟩

/-- C4 witness: a response for a hash with no pending entry leaves the empty
state unchanged. -/
theorem C4_store_before_commit_w :
    handleSignResponse ⟨["0xA"], (fun _ => []), (fun _ _ => some "0xA")⟩ true
        ⟨[], ([] : KV)⟩ ⟨"sign_response", "ab", "s1", "p"⟩ = .ok ⟨[], ([] : KV)⟩ :=
  (C4_store_before_commit _ _ _ _ [171] (by decide)).1 rfl

/-- C6 counterexample: with a single trusted address the first accepted
response completes the full trusted set, so the pending entry is deleted; the
duplicate response is then dropped (`hash ∉ pending`) and the stored
signature map keeps the FIRST signature `"s1"`, not the last one `"s2"` —
and `pending[hash].signers` no longer exists, let alone with cardinality 1. -/
theorem C6_duplicate_cex :
    handleSignResponse ⟨["0xA"], (fun _ => []), (fun _ _ => some "0xA")⟩ true
        ⟨[("ab", ⟨0, [], ⟨"sign_request", "ab", [], [], [], 0, 0⟩⟩)], ([] : KV)⟩
        ⟨"sign_response", "ab", "s1", "p"⟩ =
      .ok ⟨[], [("sig:ab", .sigmap [("0xA", "s1")])]⟩ ∧
    handleSignResponse ⟨["0xA"], (fun _ => []), (fun _ _ => some "0xA")⟩ true
        ⟨[], [("sig:ab", .sigmap [("0xA", "s1")])]⟩
        ⟨"sign_response", "ab", "s2", "p"⟩ =
      .ok ⟨[], [("sig:ab", .sigmap [("0xA", "s1")])]⟩ ∧
    aGet ([] : List (String × PendingRequest)) "ab" = none ∧
    ("s1" : String) ≠ "s2" :=
  ⟨by decide, by decide, rfl, by decide⟩

/-- C6 (amended): duplicate responses from one trusted address are idempotent
on quorum accounting provided the first response does not complete the full
trusted set (e.g. whenever `|TrustedSet| ≥ 2`): starting from a fresh pending
entry and no stored signatures, after two responses recovering to the same
address the signer set is exactly `[a]` (cardinality 1) and the stored map
holds exactly one entry for `a`, carrying the last response's signature. If
the first response completes the full trusted set, the entry is deleted and
the duplicate is dropped, leaving the first signature stored. -/
theorem C6_duplicate_idempotent (env : Env) (st : CoordState)
    (h p1 p2 ty1 ty2 s1 s2 a : String) (hb : List Nat) (t0 : Nat) (req : SignRequest)
    (hdec : hexDecode? h = some hb)
    (hr1 : env.recover (textHash env.keccak hb) s1 = some a)
    (hr2 : env.recover (textHash env.keccak hb) s2 = some a)
    (htr : isTrustedAddr env.trusted a = true)
    (hpend : aGet st.pending h = some ⟨t0, [], req⟩)
    (hsig : kvGet st.db ("sig:" ++ h) = none)
    (hn : 2 ≤ env.trusted.length) :
    ∃ st1 st2,
      handleSignResponse env true st ⟨ty1, h, s1, p1⟩ = .ok st1 ∧
      handleSignResponse env true st1 ⟨ty2, h, s2, p2⟩ = .ok st2 ∧
      (aGet st2.pending h).map PendingRequest.signers = some [a] ∧
      kvGet st2.db ("sig:" ++ h) = some (.sigmap [(a, s2)]) := by
  have hth : threshold env.trusted = env.trusted.length / 2 + 1 := rfl
  refine ⟨⟨aSet st.pending h ⟨t0, [a], req⟩,
           kvPut st.db ("sig:" ++ h) (.sigmap [(a, s1)])⟩,
          ⟨aSet (aSet st.pending h ⟨t0, [a], req⟩) h ⟨t0, [a], req⟩,
           kvPut (kvPut st.db ("sig:" ++ h) (.sigmap [(a, s1)])) ("sig:" ++ h)
             (.sigmap [(a, s2)])⟩, ?_, ?_, ?_, ?_⟩
  · rw [handleSignResponse]
    simp only [hdec, hr1, htr, Bool.not_true, Bool.false_eq_true, if_false, hpend,
      storeSignature, hsig, if_true, sInsert, List.not_mem_nil, List.nil_append,
      aSet, List.length_cons, List.length_nil]
    rw [if_neg (by simp; omega)]
  · rw [handleSignResponse]
    simp only [hdec, hr2, htr, Bool.not_true, Bool.false_eq_true, if_false,
      aGet_aSet_self, storeSignature, kvGet_kvPut_self, if_true]
    have hins : sInsert [a] a = [a] := by simp [sInsert]
    have hset : aSet [(a, s1)] a s2 = [(a, s2)] := by simp [aSet]
    rw [hins, hset, if_neg (by simp; omega)]
  · rw [aGet_aSet_self]
    rfl
  · exact kvGet_kvPut_self _ _ _

/-- C6 witness: the amended idempotency evaluated with two trusted addresses
and an abstract recovery returning address `"0xA"`. -/
theorem C6_duplicate_idempotent_w :
    ∃ st1 st2,
      handleSignResponse ⟨["0xA", "0xB"], (fun _ => []), (fun _ _ => some "0xA")⟩ true
          ⟨[("ab", ⟨0, [], ⟨"sign_request", "ab", [], [], [], 0, 0⟩⟩)], ([] : KV)⟩
          ⟨"sign_response", "ab", "s1", "p"⟩ = .ok st1 ∧
      handleSignResponse ⟨["0xA", "0xB"], (fun _ => []), (fun _ _ => some "0xA")⟩ true
          st1 ⟨"sign_response", "ab", "s2", "p"⟩ = .ok st2 ∧
      (aGet st2.pending "ab").map PendingRequest.signers = some ["0xA"] ∧
      kvGet st2.db ("sig:" ++ "ab") = some (.sigmap [("0xA", "s2")]) :=
  C6_duplicate_idempotent _ _ "ab" "p" "p" "sign_response" "sign_response" "s1" "s2" "0xA"
    [171] 0 ⟨"sign_request", "ab", [], [], [], 0, 0⟩
    (by decide) rfl rfl (by decide) rfl rfl (by decide)

/-- C2: in every reachable coordinator state, each signature stored under a
hash in the `sig:` keyspace is keyed by the address recovered from that very
signature over the text-hash of the stored hash, that address matches the
trusted set case-insensitively, and no two entries for one hash share a
recovered address (the map is keyed by it); moreover a response recovering to
an untrusted address changes neither `pending` nor the signature store,
regardless of cryptographic validity. -/
theorem C2_trusted_sig_invariant (env : Env) :
    (∀ st, Reach env st → SigInv env st) ∧
    (∀ (st : CoordState) (resp : SignResponse) (putOk : Bool) (hb : List Nat) (a : String),
      hexDecode? resp.hash = some hb →
      env.recover (textHash env.keccak hb) resp.signature = some a →
      isTrustedAddr env.trusted a = false →
      handleSignResponse env putOk st resp = .ok st) := by
  constructor
  · intro st hr
    induction hr with
    | init => intro h sm hk; simp [kvGet] at hk
    | signRequest st now req hr ih =>
      intro h sm hk
      have hdb : (handleSignRequestC now st req).db = st.db := by
        rw [handleSignRequestC]; cases aGet st.pending req.hash <;> rfl
      rw [hdb] at hk
      exact ih h sm hk
    | cleanup st now expiry hr ih =>
      intro h sm hk
      exact ih h sm hk
    | dataWrite st hash data ds meta ts dsId hr ih =>
      intro h sm hk
      rw [show ({ st with db := storeData st.db hash data ds meta ts dsId } : CoordState).db =
          storeData st.db hash data ds meta ts dsId from rfl, kvGet_storeData_sig] at hk
      exact ih h sm hk
    | signResponse st st' putOk resp hr hok ih =>
      rcases handleSignResponse_ok_cases hok with
        he | ⟨hb, a, req, sigs0, hdec, hrec, htr, hpend, hput, hsig0, hdb, hpending⟩
      · subst he; exact ih
      · intro h sm hk
        rw [hdb] at hk
        by_cases hh : ("sig:" ++ h) = ("sig:" ++ resp.hash)
        · have hh' : h = resp.hash := str_append_cancel_left hh
          rw [hh, kvGet_kvPut_self] at hk
          injection hk with hk
          injection hk with hk
          subst hk
          have hbase : (sigs0.map Prod.fst).Nodup ∧
              ∀ e ∈ sigs0, isTrustedAddr env.trusted e.1 = true ∧
                ∃ hb', hexDecode? resp.hash = some hb' ∧
                  env.recover (textHash env.keccak hb') e.2 = some e.1 := by
            rcases hsig0 with hs | ⟨hs, hnil⟩
            · exact ih resp.hash sigs0 hs
            · subst hnil
              exact ⟨List.nodup_nil, fun e he => absurd he (List.not_mem_nil e)⟩
          refine ⟨keys_nodup_aSet hbase.1, ?_⟩
          intro e he
          rcases mem_aSet he with he1 | he1
          · subst he1
            exact ⟨htr, hb, by rw [hh']; exact hdec, hrec⟩
          · rcases hbase.2 e he1 with ⟨htr', hb', hdec', hrec'⟩
            exact ⟨htr', hb', by rw [hh']; exact hdec', hrec'⟩
        · rw [kvGet_kvPut_ne _ _ _ _ hh] at hk
          exact ih h sm hk
  · intro st resp putOk hb a hdec hrec htr
    rw [handleSignResponse, hdec]
    simp only [hrec, htr, Bool.not_false, if_true]

/-- C2 witness: a valid-looking response recovering to the untrusted address
`"0xBBBB"` leaves the empty coordinator state untouched. -/
theorem C2_trusted_sig_invariant_w :
    handleSignResponse ⟨["0xAAAA"], (fun _ => []), (fun _ _ => some "0xBBBB")⟩ true
        ⟨[], ([] : KV)⟩ ⟨"sign_response", "ab", "s1", "p"⟩ = .ok ⟨[], ([] : KV)⟩ :=
  (C2_trusted_sig_invariant _).2 _ _ _ [171] "0xBBBB" (by decide) rfl (by decide)

/-- Helper for prefix facts: a list is a Boolean prefix of itself extended. -/
theorem isPrefixOf_append_self {α : Type} [BEq α] [LawfulBEq α] :
    ∀ (l r : List α), List.isPrefixOf l (l ++ r) = true := by
  intro l
  induction l with
  | nil => intro r; simp [List.isPrefixOf]
  | cons a as ih => intro r; simp [List.isPrefixOf, ih]

theorem strHasPfx_append (p r : String) : strHasPfx p (p ++ r) = true := by
  rw [strHasPfx, String.data_append]
  exact isPrefixOf_append_self _ _

theorem strHasPfx_false_of_head {p s : String} {c d : Char}
    (hp : p.data.head? = some c) (hs : s.data.head? = some d) (hne : c ≠ d) :
    strHasPfx p s = false := by
  rw [strHasPfx]
  cases hpd : p.data with
  | nil => rw [hpd] at hp; cases hp
  | cons x xs =>
    rw [hpd] at hp
    injection hp with hp
    cases hsd : s.data with
    | nil => rw [hsd] at hs; cases hs
    | cons y ys =>
      rw [hsd] at hs
      injection hs with hs
      subst hp; subst hs
      simp [List.isPrefixOf, hne]

theorem tsIndexKey_head (dsId ts : Int) (hash : String) :
    (tsIndexKey dsId ts hash).data.head? = some 'i' := by
  have hrw : tsIndexKey dsId ts hash =
      "index:" ++ (intRepr dsId ++ (":" ++ (intRepr ts ++ (":" ++ hash)))) := by
    simp [tsIndexKey, String.append_assoc]
  rw [hrw]
  exact head_append_of_head _ rfl

theorem fieldIndexKey_head (dsId : Int) (f : String) (v : JVal) (hash : String) :
    (fieldIndexKey dsId f v hash).data.head? = some 'i' := by
  have hrw : fieldIndexKey dsId f v hash =
      "index:" ++ (intRepr dsId ++ (":" ++ (f ++ (":" ++ (fmtV v ++ (":" ++ hash)))))) := by
    simp [fieldIndexKey, String.append_assoc]
  rw [hrw]
  exact head_append_of_head _ rfl

theorem tsIndexKey_ne_fieldIndexKey (dsId ts : Int) (hash f : String) (v : JVal)
    (hf : ':' ∉ f.data) : tsIndexKey dsId ts hash ≠ fieldIndexKey dsId f v hash := by
  intro he
  have h1 : tsIndexKey dsId ts hash =
      ("index:" ++ intRepr dsId ++ ":") ++ (intRepr ts ++ (":" ++ hash)) := by
    simp [tsIndexKey, String.append_assoc]
  have h2 : fieldIndexKey dsId f v hash =
      ("index:" ++ intRepr dsId ++ ":") ++ (f ++ (":" ++ (fmtV v ++ (":" ++ hash)))) := by
    simp [fieldIndexKey, String.append_assoc]
  rw [h1, h2] at he
  exact key_suffix_ne (intRepr ts) f (fmtV v) hash (colon_not_mem_intRepr ts) hf
    (str_append_cancel_left he)

theorem fieldIndexKey_inj_ne (dsId : Int) (hash f1 f2 : String) (v1 v2 : JVal)
    (h1 : ':' ∉ f1.data) (h2 : ':' ∉ f2.data) (hne : f1 ≠ f2) :
    fieldIndexKey dsId f1 v1 hash ≠ fieldIndexKey dsId f2 v2 hash := by
  intro he
  have e1 : fieldIndexKey dsId f1 v1 hash =
      ("index:" ++ intRepr dsId ++ ":") ++ (f1 ++ (":" ++ (fmtV v1 ++ (":" ++ hash)))) := by
    simp [fieldIndexKey, String.append_assoc]
  have e2 : fieldIndexKey dsId f2 v2 hash =
      ("index:" ++ intRepr dsId ++ ":") ++ (f2 ++ (":" ++ (fmtV v2 ++ (":" ++ hash)))) := by
    simp [fieldIndexKey, String.append_assoc]
  rw [e1, e2] at he
  have hsuffix := str_append_cancel_left he
  have hd := congrArg String.data hsuffix
  simp only [String.data_append] at hd
  have hd' : f1.data ++ ':' :: (fmtV v1 ++ (":" ++ hash)).data =
      f2.data ++ ':' :: (fmtV v2 ++ (":" ++ hash)).data := by simpa using hd
  exact hne (String.ext (colonfree_split h1 h2 hd').1)

theorem buildDataMap_keys_nodup (meta : List String) (data : List JVal) :
    ((buildDataMap meta data).map Prod.fst).Nodup := by
  rw [buildDataMap]
  have h : ∀ (l : List (String × JVal)) (acc : List (String × JVal)),
      (acc.map Prod.fst).Nodup →
      ((l.foldl (fun m fd => aSet m fd.1 fd.2) acc).map Prod.fst).Nodup := by
    intro l
    induction l with
    | nil => intro acc h; exact h
    | cons a rest ih => intro acc h; exact ih _ (keys_nodup_aSet h)
  exact h _ [] (by simp)

theorem kvKeysPfx_length_kvPut_not_pfx (kv : KV) (k : String) (v : VVal) (p : String)
    (hp : strHasPfx p k = false) :
    (kvKeysPfx (kvPut kv k v) p).length = (kvKeysPfx kv p).length := by
  induction kv with
  | nil => simp [kvPut, kvKeysPfx, hp]
  | cons e rest ih =>
    by_cases hlt : strLt k e.1
    · simp [kvPut, hlt, kvKeysPfx, hp]
    · by_cases he : k = e.1
      · subst he
        simp [kvPut, hlt, kvKeysPfx, hp]
      · simp only [kvPut, hlt, if_neg, he, Bool.false_eq_true, ite_false]
        simp only [kvKeysPfx, List.map_cons, List.filter] at ih ⊢
        cases strHasPfx p e.1 <;> simp [ih]

theorem kvKeysPfx_length_kvPut_fresh (kv : KV) (k : String) (v : VVal) (p : String)
    (hfresh : kvGet kv k = none) (hp : strHasPfx p k = true) :
    (kvKeysPfx (kvPut kv k v) p).length = (kvKeysPfx kv p).length + 1 := by
  induction kv with
  | nil => simp [kvPut, kvKeysPfx, hp]
  | cons e rest ih =>
    have hke : k ≠ e.1 := by
      intro he
      rw [kvGet, if_pos he] at hfresh
      cases hfresh
    have hrest : kvGet rest k = none := by
      rw [kvGet, if_neg hke] at hfresh
      exact hfresh
    by_cases hlt : strLt k e.1
    · simp [kvPut, hlt, kvKeysPfx, hp]
    · simp only [kvPut, hlt, Bool.false_eq_true, ite_false, if_neg hke]
      simp only [kvKeysPfx, List.map_cons, List.filter] at ih ⊢
      cases strHasPfx p e.1 <;> simp [ih hrest]

theorem kvKeysPfx_length_foldl_fieldIdx (dsId : Int) (hash : String) (p : String) :
    ∀ (l : List (String × JVal)) (kv : KV),
    (∀ a ∈ l, kvGet kv (fieldIndexKey dsId a.1 a.2 hash) = none) →
    (∀ a ∈ l, strHasPfx p (fieldIndexKey dsId a.1 a.2 hash) = true) →
    List.Pairwise (fun a b => fieldIndexKey dsId a.1 a.2 hash ≠ fieldIndexKey dsId b.1 b.2 hash) l →
    (kvKeysPfx (l.foldl (fun kv fv => kvPut kv (fieldIndexKey dsId fv.1 fv.2 hash) VVal.empty) kv) p).length
      = (kvKeysPfx kv p).length + l.length := by
  intro l
  induction l with
  | nil => intro kv _ _ _; simp
  | cons a rest ih =>
    intro kv hfresh hpfx hpair
    simp only [List.foldl_cons]
    have hpair' := List.pairwise_cons.1 hpair
    rw [ih _ ?fresh (fun b hb => hpfx b (List.mem_cons_of_mem _ hb)) hpair'.2,
      kvKeysPfx_length_kvPut_fresh _ _ _ _ (hfresh a (List.mem_cons_self _ _))
        (hpfx a (List.mem_cons_self _ _))]
    · simp only [List.length_cons]
      omega
    case fresh =>
      intro b hb
      rw [kvGet_kvPut_ne _ _ _ _ (Ne.symm (hpair'.1 b hb))]
      exact hfresh b (List.mem_cons_of_mem _ hb)

/-- `GetDataStructureStats` increments `MessageCount` once per visited key,
before any parsing or filtering. -/
theorem gdsLoop_messageCount (kv : KV) (th : Int) :
    ∀ (keys : List String) (st : DataStructureStats),
    (gdsLoop kv th keys st).messageCount = st.messageCount + keys.length := by
  intro keys
  induction keys with
  | nil => intro st; simp [gdsLoop]
  | cons k ks ih =>
    intro st
    rw [gdsLoop]
    repeat' split
    all_goals rw [ih]
    all_goals simp [apply_ite DataStructureStats.messageCount]
    all_goals omega

/-- Counting core for `StoreData`: writing the record row, the timestamp
index key and one field index key per `dataMap` entry adds exactly
`|dataMap| + 1` keys to the `index:<dsId>:` range. -/
theorem storeData_count_core (kv : KV) (hash : String) (dm : List (String × JVal))
    (ts dsId : Int) (dataVal : VVal)
    (hcf : ∀ f ∈ dm.map Prod.fst, ':' ∉ f.data)
    (hts : kvGet kv (tsIndexKey dsId ts hash) = none)
    (hfld : ∀ a ∈ dm, kvGet kv (fieldIndexKey dsId a.1 a.2 hash) = none)
    (hnodup : (dm.map Prod.fst).Nodup) :
    (kvKeysPfx (dm.foldl (fun kv fv => kvPut kv (fieldIndexKey dsId fv.1 fv.2 hash) VVal.empty)
        (kvPut (kvPut kv ("data:" ++ hash) dataVal) (tsIndexKey dsId ts hash) VVal.empty))
      ("index:" ++ intRepr dsId ++ ":")).length
      = (kvKeysPfx kv ("index:" ++ intRepr dsId ++ ":")).length + (dm.length + 1) := by
  have hd_data : ("data:" ++ hash).data.head? = some 'd' := head_append_of_head _ rfl
  have hpfx_head : ("index:" ++ intRepr dsId ++ ":").data.head? = some 'i' := by
    have hrw : ("index:" ++ intRepr dsId ++ ":") = "index:" ++ (intRepr dsId ++ ":") := by
      simp [String.append_assoc]
    rw [hrw]
    exact head_append_of_head _ rfl
  have hne_ts_data : tsIndexKey dsId ts hash ≠ "data:" ++ hash :=
    str_ne_of_head (by rw [tsIndexKey_head, hd_data]; decide)
  have hne_f_data : ∀ f v, fieldIndexKey dsId f v hash ≠ "data:" ++ hash := fun f v =>
    str_ne_of_head (by rw [fieldIndexKey_head, hd_data]; decide)
  have hnp_data : strHasPfx ("index:" ++ intRepr dsId ++ ":") ("data:" ++ hash) = false :=
    strHasPfx_false_of_head hpfx_head hd_data (by decide)
  have hpfxts : strHasPfx ("index:" ++ intRepr dsId ++ ":") (tsIndexKey dsId ts hash) = true := by
    have hrw : tsIndexKey dsId ts hash =
        ("index:" ++ intRepr dsId ++ ":") ++ (intRepr ts ++ (":" ++ hash)) := by
      simp [tsIndexKey, String.append_assoc]
    rw [hrw]
    exact strHasPfx_append _ _
  have hpfxf : ∀ (f : String) (v : JVal),
      strHasPfx ("index:" ++ intRepr dsId ++ ":") (fieldIndexKey dsId f v hash) = true := by
    intro f v
    have hrw : fieldIndexKey dsId f v hash =
        ("index:" ++ intRepr dsId ++ ":") ++ (f ++ (":" ++ (fmtV v ++ (":" ++ hash)))) := by
      simp [fieldIndexKey, String.append_assoc]
    rw [hrw]
    exact strHasPfx_append _ _
  have hfresh : ∀ a ∈ dm,
      kvGet (kvPut (kvPut kv ("data:" ++ hash) dataVal) (tsIndexKey dsId ts hash) VVal.empty)
        (fieldIndexKey dsId a.1 a.2 hash) = none := by
    intro a ha
    have hfcf : ':' ∉ a.1.data := hcf a.1 (List.mem_map_of_mem _ ha)
    rw [kvGet_kvPut_ne _ _ _ _ (Ne.symm (tsIndexKey_ne_fieldIndexKey dsId ts hash a.1 a.2 hfcf)),
      kvGet_kvPut_ne _ _ _ _ (hne_f_data a.1 a.2)]
    exact hfld a ha
  have hpair : List.Pairwise
      (fun a b => fieldIndexKey dsId a.1 a.2 hash ≠ fieldIndexKey dsId b.1 b.2 hash) dm := by
    have h1 : dm.Pairwise (fun a b => a.1 ≠ b.1) := List.pairwise_map.1 hnodup
    refine h1.imp_of_mem ?_
    intro a b ha hb hne
    exact fieldIndexKey_inj_ne dsId hash a.1 b.1 a.2 b.2
      (hcf a.1 (List.mem_map_of_mem _ ha)) (hcf b.1 (List.mem_map_of_mem _ hb)) hne
  rw [kvKeysPfx_length_foldl_fieldIdx dsId hash _ dm _ hfresh (fun a _ => hpfxf a.1 a.2) hpair,
    kvKeysPfx_length_kvPut_fresh _ _ _ _
      (by rw [kvGet_kvPut_ne _ _ _ _ hne_ts_data]; exact hts) hpfxts,
    kvKeysPfx_length_kvPut_not_pfx _ _ _ _ hnp_data]
  omega

/-- C9: `GetDataStructureStats.MessageCount` counts every key under the
`index:<dsId>:` prefix, and `StoreData` writes `k+1` such keys for a record
with `k` distinct field→value pairs in its `dataStructureMeta`-derived map
(one timestamp key plus one per field) — so `MessageCount` totals index keys,
roughly `(k+1)` per record, not distinct records. Stated for fresh index keys
and colon-free field names (the normal operating regime; colliding keys would
be overwritten in place). -/
theorem C9_index_count :
    (∀ (kv : KV) (id threshold : Int),
      (getDataStructureStats kv id threshold).messageCount =
        (kvKeysPfx kv ("index:" ++ intRepr id ++ ":")).length) ∧
    (∀ (kv : KV) (hash : String) (data : List JVal) (ds meta : List String) (ts dsId : Int),
      (∀ f ∈ (buildDataMap meta data).map Prod.fst, ':' ∉ f.data) →
      kvGet kv (tsIndexKey dsId ts hash) = none →
      (∀ a ∈ buildDataMap meta data, kvGet kv (fieldIndexKey dsId a.1 a.2 hash) = none) →
      (kvKeysPfx (storeData kv hash data ds meta ts dsId)
          ("index:" ++ intRepr dsId ++ ":")).length =
        (kvKeysPfx kv ("index:" ++ intRepr dsId ++ ":")).length +
          ((buildDataMap meta data).length + 1)) := by
  constructor
  · intro kv id threshold
    rw [getDataStructureStats, gdsLoop_messageCount]
    simp
  · intro kv hash data ds meta ts dsId hcf hts hfld
    have hd_ds : ("ds:" ++ intRepr dsId).data.head? = some 'd' := head_append_of_head _ rfl
    have hpfx_head : ("index:" ++ intRepr dsId ++ ":").data.head? = some 'i' := by
      have hrw : ("index:" ++ intRepr dsId ++ ":") = "index:" ++ (intRepr dsId ++ ":") := by
        simp [String.append_assoc]
      rw [hrw]
      exact head_append_of_head _ rfl
    have hne_ts_ds : tsIndexKey dsId ts hash ≠ "ds:" ++ intRepr dsId :=
      str_ne_of_head (by rw [tsIndexKey_head, hd_ds]; decide)
    have hne_f_ds : ∀ f v, fieldIndexKey dsId f v hash ≠ "ds:" ++ intRepr dsId := fun f v =>
      str_ne_of_head (by rw [fieldIndexKey_head, hd_ds]; decide)
    have hnp_ds : strHasPfx ("index:" ++ intRepr dsId ++ ":") ("ds:" ++ intRepr dsId) = false :=
      strHasPfx_false_of_head hpfx_head hd_ds (by decide)
    simp only [storeData]
    cases hds : kvGet kv ("ds:" ++ intRepr dsId) with
    | some v0 =>
      exact storeData_count_core kv hash (buildDataMap meta data) ts dsId _ hcf hts hfld
        (buildDataMap_keys_nodup meta data)
    | none =>
      rw [storeData_count_core (kvPut kv ("ds:" ++ intRepr dsId) (VVal.dsv ds)) hash
          (buildDataMap meta data) ts dsId _ hcf
          (by rw [kvGet_kvPut_ne _ _ _ _ hne_ts_ds]; exact hts)
          (fun a ha => by
            rw [kvGet_kvPut_ne _ _ _ _ (hne_f_ds a.1 a.2)]
            exact hfld a ha)
          (buildDataMap_keys_nodup meta data),
        kvKeysPfx_length_kvPut_not_pfx _ _ _ _ hnp_ds]

/-- C9 witness: storing a record with two field→value pairs into the empty
store yields three index keys, and `MessageCount` reports 3 (not 1 record). -/
theorem C9_index_count_w :
    (getDataStructureStats
        (storeData ([] : KV) "h1" [.jstr "SBER", .jint 7] ["string", "uint64"]
          ["ticker", "chain"] 100 5) 5 1).messageCount =
      (kvKeysPfx (storeData ([] : KV) "h1" [.jstr "SBER", .jint 7] ["string", "uint64"]
          ["ticker", "chain"] 100 5) ("index:" ++ intRepr 5 ++ ":")).length ∧
    (kvKeysPfx (storeData ([] : KV) "h1" [.jstr "SBER", .jint 7] ["string", "uint64"]
        ["ticker", "chain"] 100 5) ("index:" ++ intRepr 5 ++ ":")).length =
      (kvKeysPfx ([] : KV) ("index:" ++ intRepr 5 ++ ":")).length +
        ((buildDataMap ["ticker", "chain"] [.jstr "SBER", .jint 7]).length + 1) :=
  ⟨C9_index_count.1 _ 5 1,
   C9_index_count.2 [] "h1" [.jstr "SBER", .jint 7] ["string", "uint64"] ["ticker", "chain"]
     100 5 (by decide) rfl (by decide)⟩

/-! ## Lemmas: big-endian byte encodings -/

theorem log2Fuel_spec : ∀ (fuel n : Nat), n ≤ fuel → 1 ≤ n →
    2 ^ log2Fuel fuel n ≤ n ∧ n < 2 ^ (log2Fuel fuel n + 1) := by
  intro fuel
  induction fuel with
  | zero => intro n hn h1; omega
  | succ fuel ih =>
    intro n hn h1
    rw [log2Fuel]
    by_cases hle : n ≤ 1
    · have hn1 : n = 1 := by omega
      subst hn1
      simp
    · rw [if_neg hle]
      have hrec := ih (n / 2) (by omega) (by omega)
      have hp1 : (2 : Nat) ^ (log2Fuel fuel (n / 2) + 1) = 2 * 2 ^ log2Fuel fuel (n / 2) := by
        ring
      have hp2 : (2 : Nat) ^ (log2Fuel fuel (n / 2) + 1 + 1) =
          2 * 2 ^ (log2Fuel fuel (n / 2) + 1) := by ring
      constructor
      · rw [hp1]; omega
      · rw [hp2]; omega

theorem natLog2_spec (n : Nat) (h : 1 ≤ n) :
    2 ^ natLog2 n ≤ n ∧ n < 2 ^ (natLog2 n + 1) :=
  log2Fuel_spec n n le_rfl h

theorem lt_pow256_byteLen (n : Nat) : n < 256 ^ byteLen n := by
  by_cases h : n = 0
  · subst h; decide
  · have hs := (natLog2_spec n (by omega)).2
    rw [byteLen, if_neg h]
    have h8 : (256 : Nat) ^ (natLog2 n / 8 + 1) = 2 ^ (8 * (natLog2 n / 8 + 1)) := by
      rw [Nat.pow_mul]
    rw [h8]
    have hle : natLog2 n + 1 ≤ 8 * (natLog2 n / 8 + 1) := by omega
    exact lt_of_lt_of_le hs (Nat.pow_le_pow_right (by norm_num) hle)

theorem byteLen_le_32 (n : Nat) (h : n < 2 ^ 256) : byteLen n ≤ 32 := by
  by_cases h0 : n = 0
  · subst h0; simp [byteLen]
  · rw [byteLen, if_neg h0]
    have hs := (natLog2_spec n (by omega)).1
    have hlt : (2 : Nat) ^ natLog2 n < 2 ^ 256 := lt_of_le_of_lt hs h
    have : natLog2 n < 256 := (Nat.pow_lt_pow_iff_right (by norm_num)).1 hlt
    omega

theorem natBytesBE_length (n : Nat) : (natBytesBE n).length = byteLen n := by
  simp [natBytesBE]

/-- Left-padding the minimal big-endian encoding to 32 bytes is the 32-byte
big-endian encoding. -/
theorem replicate_append_natBytesBE (n : Nat) (hlt : n < 2 ^ 256) :
    List.replicate (32 - (natBytesBE n).length) 0 ++ natBytesBE n =
      (List.range 32).map (fun i => n / 256 ^ (31 - i) % 256) := by
  have hL32 : byteLen n ≤ 32 := byteLen_le_32 n hlt
  have hlen : (natBytesBE n).length = byteLen n := natBytesBE_length n
  apply List.ext_getElem
  · simp [hlen]
    omega
  · intro i h1 h2
    rw [List.getElem_map, List.getElem_range]
    by_cases hi : i < 32 - byteLen n
    · rw [List.getElem_append_left (by simp [hlen]; omega)]
      rw [List.getElem_replicate]
      have hexp : byteLen n ≤ 31 - i := by omega
      have hbig : n < 256 ^ (31 - i) :=
        lt_of_lt_of_le (lt_pow256_byteLen n) (Nat.pow_le_pow_right (by norm_num) hexp)
      rw [Nat.div_eq_of_lt hbig]
    · rw [List.getElem_append_right (by simp [hlen]; omega)]
      simp only [natBytesBE, List.getElem_map, List.getElem_range, List.length_replicate,
        List.length_map, List.length_range, hlen]
      have hi32 : i < 32 := by simpa using h2
      have hexp : byteLen n - 1 - (i - (32 - byteLen n)) = 31 - i := by omega
      rw [hexp]

theorem hexDigitChar_cases (m : Nat) :
    (hexDigitChar m).isDigit = true ∨ ('a' ≤ hexDigitChar m ∧ hexDigitChar m ≤ 'f') := by
  unfold hexDigitChar digChar
  split_ifs <;> first
    | (left; decide)
    | (right; exact ⟨by decide, by decide⟩)

/-- Every character of a `%x`-formatted byte string is a lowercase hex digit. -/
theorem hexOfBytes_lower (bs : List Nat) :
    ∀ c ∈ (hexOfBytes bs).data, c.isDigit = true ∨ ('a' ≤ c ∧ c ≤ 'f') := by
  intro c hc
  rw [hexOfBytes] at hc
  have hc' : c ∈ (bs.map fun b => [hexDigitChar (b / 16), hexDigitChar (b % 16)]).flatten := hc
  rw [List.mem_flatten] at hc'
  rcases hc' with ⟨l, hl, hcl⟩
  rw [List.mem_map] at hl
  rcases hl with ⟨b, _, hb⟩
  subst hb
  rcases List.mem_cons.1 hcl with h | hcl2
  · subst h; exact hexDigitChar_cases _
  · rcases List.mem_cons.1 hcl2 with h | h
    · subst h; exact hexDigitChar_cases _
    · exact absurd h (List.not_mem_nil c)

/-- C1: every `SignRequest` built by `StockQuoteMessageBuilder.BuildMessage`
(for the int64 `time.Now().Unix()` timestamps, which are non-negative) carries
`timestamp = now`, and its `hash` field is the lowercase hex encoding of
`keccak256(packed(["string","uint256"], [json(data), timestamp]))` — the raw
UTF-8 bytes of the canonical JSON array encoding of the request's own `data`,
followed by the 32-byte big-endian left-padded encoding of the request's own
`timestamp` — for the very `keccak256` function the program links against. -/
theorem C1_hash_contract (keccak : List Nat → List Nat) (b : StockQuoteMessageBuilder)
    (price : FloatRep) (now : Int) (req : SignRequest)
    (h0 : 0 ≤ now) (h1 : now < 2 ^ 256)
    (hok : buildMessage keccak b price now = .ok req) :
    req.timestamp = now ∧
    req.hash = hexOfBytes (keccak (strUtf8 (jsonArr req.data) ++ specBe32 req.timestamp)) ∧
    ∀ c ∈ req.hash.data, c.isDigit = true ∨ ('a' ≤ c ∧ c ≤ 'f') := by
  have habs : now.natAbs = now.toNat := by omega
  have hlt : now.natAbs < 2 ^ 256 := by omega
  have hbytes : padTo32Bytes (bigIntBytes now) = .ok (specBe32 now) := by
    rw [padTo32Bytes, bigIntBytes]
    rw [if_neg (by rw [natBytesBE_length]; have := byteLen_le_32 _ hlt; omega)]
    congr 1
    rw [replicate_append_natBytesBE _ hlt, specBe32, habs]
  have hcalc : ∀ dataE : List JVal, calculateHash keccak dataE now =
      .ok (hexOfBytes (keccak (strUtf8 (jsonArr dataE) ++ specBe32 now))) := by
    intro dataE
    rw [calculateHash]
    simp [solidityKeccak256, packAll, packOne, hbytes, Except.map,
      bind, Except.bind, pure, Except.pure]
  rw [buildMessage] at hok
  rw [hcalc] at hok
  simp only [bind, Except.bind, pure, Except.pure] at hok
  injection hok with hok
  subst hok
  exact ⟨rfl, rfl, hexOfBytes_lower _⟩

set_option maxRecDepth 10000 in
/-- C1 witness: a one-field schema, price 1.0 and timestamp 1700000000, with
the keccak parameter fixed to the constant `[171]`, produce hash `"ab"`. -/
theorem C1_hash_contract_w :
    buildMessage (fun _ => [171]) ⟨"SBER", "7", 1, [("ticker", "string")]⟩ ⟨1, 0⟩ 1700000000 =
      .ok ⟨"sign_request", "ab", [.jstr "SBER"], ["string"], ["ticker"], 7, 1700000000⟩ ∧
    (⟨"sign_request", "ab", [.jstr "SBER"], ["string"], ["ticker"], 7,
        1700000000⟩ : SignRequest).hash =
      hexOfBytes ((fun _ => [171])
        (strUtf8 (jsonArr [.jstr "SBER"]) ++ specBe32 (1700000000 : Int))) :=
  ⟨by decide,
   (C1_hash_contract (fun _ => [171]) ⟨"SBER", "7", 1, [("ticker", "string")]⟩ ⟨1, 0⟩
     1700000000 _ (by decide) (by decide) (by decide)).2.1⟩

end L0
